import Mathlib

/-!
Verification of the game-of-life-3d repository core.

The development shallowly embeds the three source files' algorithmic core:
`src/gameOfLife.js` (the toroidal grid automaton), the clustering routine
`identifyOrganismGroups` of `src/blobVisualizer.js`, and the generation
transition of `src/blobVisualizer.js` (`prepareNextGeneration` and
`animateNextGeneration`).

JavaScript arrays of arrays of 0/1 numbers become `List (List Nat)`.
Out-of-bounds array access, which yields `undefined` in JavaScript, is
modelled by `Option`.  The JavaScript `%` operator is truncating remainder,
`Int.tmod`; at the call sites where the source guarantees a nonnegative
operand the embedding uses `Int.emod`, which agrees with `Int.tmod` there.
All functions are purely functional state transformers, mirroring the fact
that the source computes next generations into fresh arrays.
-/

/-! ## Grid automaton (`src/gameOfLife.js`) -/

/-- A grid is a list of rows, each row a list of cell states (1 alive, 0 dead),
exactly as the source's `this.grid[y][x]` array of arrays. -/
abbrev Grid := List (List Nat)

/-- Raw double indexing `grid[y][x]`; `none` models the JavaScript `undefined`
(or the TypeError of indexing into `undefined`). -/
def cell? (g : Grid) (x y : Nat) : Option Nat :=
  (g.get? y).bind (fun row => row.get? x)

/-- A grid has `N` rows of length `N` each (`this.size = N`). -/
def WFGrid (N : Nat) (g : Grid) : Prop :=
  g.length = N ∧ ∀ row ∈ g, row.length = N

/-- All stored cell states are 0 or 1, as `reset` produces. -/
def BinaryGrid (g : Grid) : Prop :=
  ∀ row ∈ g, ∀ v ∈ row, v = 0 ∨ v = 1

instance : DecidablePred (WFGrid N) := fun g => by
  unfold WFGrid; infer_instance

instance : DecidablePred BinaryGrid := fun g => by
  unfold BinaryGrid; infer_instance

/-- `getCell(x, y)` of `gameOfLife.js`:
`const wrappedX = (x + this.size) % this.size;` (same for `y`), then
`this.grid[wrappedY][wrappedX]`.  JavaScript `%` truncates toward zero
(`Int.tmod`), so a negative remainder (possible when `x < -N`) makes the
array access land outside the grid; that access is modelled by `none`. -/
def getCell? (N : Nat) (g : Grid) (x y : Int) : Option Nat :=
  let wx := (x + N).tmod N
  let wy := (y + N).tmod N
  if 0 ≤ wx ∧ 0 ≤ wy then cell? g wx.toNat wy.toNat else none

/-- The 8 neighbour offsets `(dx, dy)` in the source's iteration order
(`dy` outer from -1 to 1, `dx` inner, skipping `(0,0)`). -/
def offsets : List (Int × Int) :=
  [(-1, -1), (0, -1), (1, -1), (-1, 0), (1, 0), (-1, 1), (0, 1), (1, 1)]

/-- `countNeighbors(x, y)`: sums `getCell` over the 8 offsets.  Every call the
source makes has `x, y ∈ [0, N)`, where each lookup is defined
(`getCell?_eq_cell?` below); the impossible undefined case defaults to 0. -/
def countNeighbors (N : Nat) (g : Grid) (x y : Int) : Nat :=
  (offsets.map (fun d => (getCell? N g (x + d.1) (y + d.2)).getD 0)).sum

/-- `computeNextGeneration()`: builds a fresh `N × N` grid, each cell from its
current state and neighbour count by Conway's rule exactly as the source's
branch on `cell === 1`. -/
def computeNextGeneration (N : Nat) (g : Grid) : Grid :=
  (List.range N).map (fun (y : Nat) =>
    (List.range N).map (fun (x : Nat) =>
      let cell := (getCell? N g x y).getD 0
      let neighbors := countNeighbors N g x y
      if cell = 1 then
        if neighbors = 2 ∨ neighbors = 3 then 1 else 0
      else
        if neighbors = 3 then 1 else 0))

/-- The cell coordinates `(x, y)` in the source's scan order (`y` outer). -/
def cellPairs (N : Nat) : List (Nat × Nat) :=
  (List.range N).flatMap (fun y => (List.range N).map (fun x => (x, y)))

/-- One entry of the list `getChangedCells` returns: `{x, y, state}` where
`state` is the raw `newGrid[y][x]` (an `Option` models `undefined`). -/
structure ChangedCell where
  x : Nat
  y : Nat
  state : Option Nat
deriving DecidableEq

/-- `getChangedCells(oldGrid, newGrid)`: scans all `N × N` positions in source
order and records those where the raw entries differ, with the new value. -/
def getChangedCells (N : Nat) (oldG newG : Grid) : List ChangedCell :=
  (cellPairs N).filterMap (fun c =>
    if cell? oldG c.1 c.2 ≠ cell? newG c.1 c.2 then
      some ⟨c.1, c.2, cell? newG c.1 c.2⟩
    else none)

/-- `reset(density)` (and through it the constructor): fills an `N × N` grid
with `Math.random() < density ? 1 : 0`.  The random stream is modelled by the
oracle `r` giving the draw consumed at `(y, x)`; a non-positive `size` makes
both loops run zero times, which `Int.toNat` captures.  The source performs no
validation of `size` or `density` and has no error path. -/
def reset (size : Int) (density : ℚ) (r : Nat → Nat → ℚ) : Grid :=
  (List.range size.toNat).map (fun y =>
    (List.range size.toNat).map (fun x => if r y x < density then 1 else 0))

/-! ### Basic grid lemmas -/

lemma cell?_of_wf {N : Nat} {g : Grid} (hwf : WFGrid N g) {x y : Nat}
    (hx : x < N) (hy : y < N) : ∃ v, cell? g x y = some v := by
  obtain ⟨hlen, hrow⟩ := hwf
  have hy' : y < g.length := by omega
  obtain ⟨row, hgy⟩ : ∃ row, g.get? y = some row :=
    ⟨g.get ⟨y, hy'⟩, List.get?_eq_get hy'⟩
  have hmem : row ∈ g := List.get?_mem hgy
  have hx' : x < row.length := by rw [hrow row hmem]; omega
  refine ⟨row.get ⟨x, hx'⟩, ?_⟩
  simp only [cell?]
  rw [hgy, Option.some_bind, List.get?_eq_get hx']

lemma wrap_self {N : Nat} {u : Nat} (hu : u < N) :
    ((u : Int) + N).tmod N = (u : Int) := by
  rw [Int.tmod_eq_emod (by omega) (by omega),
    show ((u : Int) + N) = u + N * 1 by ring, Int.add_mul_emod_self_left,
    Int.emod_eq_of_lt (by omega) (by omega)]

lemma getCell?_eq_cell? {N : Nat} (g : Grid) {x y : Nat} (hx : x < N) (hy : y < N) :
    getCell? N g x y = cell? g x y := by
  simp [getCell?, wrap_self hx, wrap_self hy]

lemma cell?_mem {g : Grid} {x y v : Nat} (h : cell? g x y = some v) :
    ∃ row ∈ g, v ∈ row := by
  simp only [cell?] at h
  cases hgy : g.get? y with
  | none => rw [hgy] at h; simp at h
  | some row =>
    rw [hgy, Option.some_bind] at h
    exact ⟨row, List.get?_mem hgy, List.get?_mem h⟩

lemma cell?_mapGrid (f : Nat → Nat → Nat) {N x y : Nat} (hx : x < N) (hy : y < N) :
    cell? ((List.range N).map (fun (y : Nat) =>
      (List.range N).map (fun (x : Nat) => f x y))) x y = some (f x y) := by
  simp only [cell?]
  rw [List.get?_map, List.get?_range hy, Option.map_some', Option.some_bind,
    List.get?_map, List.get?_range hx, Option.map_some']

lemma computeNextGeneration_cell (N : Nat) (g : Grid) {x y : Nat}
    (hx : x < N) (hy : y < N) :
    cell? (computeNextGeneration N g) x y =
      some (if (getCell? N g x y).getD 0 = 1 then
              if countNeighbors N g x y = 2 ∨ countNeighbors N g x y = 3 then 1 else 0
            else
              if countNeighbors N g x y = 3 then 1 else 0) :=
  cell?_mapGrid (fun x y =>
    if (getCell? N g x y).getD 0 = 1 then
      if countNeighbors N g x y = 2 ∨ countNeighbors N g x y = 3 then 1 else 0
    else
      if countNeighbors N g x y = 3 then 1 else 0) hx hy

/-- C1.  For every `N × N` grid and every in-range cell `(x, y)`, the grid
`computeNextGeneration()` returns has `(x, y)` alive exactly when the cell is
alive with toroidal live-neighbour count 2 or 3, or dead with count exactly 3.
The embedding is purely functional, so the call leaves the current grid
untouched and is deterministic in it by construction. -/
theorem computeNextGeneration_rule (N : Nat) (g : Grid)
    (hwf : WFGrid N g) (hbin : BinaryGrid g) (x y : Nat)
    (hx : x < N) (hy : y < N) :
    cell? (computeNextGeneration N g) x y = some 1 ↔
      ((cell? g x y = some 1 ∧
          (countNeighbors N g x y = 2 ∨ countNeighbors N g x y = 3)) ∨
       (cell? g x y = some 0 ∧ countNeighbors N g x y = 3)) := by
  obtain ⟨v, hv⟩ := cell?_of_wf hwf hx hy
  have hv01 : v = 0 ∨ v = 1 := by
    obtain ⟨row, hrow, hvrow⟩ := cell?_mem hv
    exact hbin row hrow v hvrow
  have hget : getCell? N g x y = some v := by
    rw [getCell?_eq_cell? g hx hy, hv]
  rw [computeNextGeneration_cell N g hx hy, hget, hv]
  rcases hv01 with h0 | h1
  · subst h0
    simp only [Option.getD_some, OfNat.zero_ne_ofNat, if_false, reduceCtorEq]
    split_ifs with h
    · simp [h]
    · simp [h]
  · subst h1
    simp only [Option.getD_some, if_true]
    split_ifs with h
    · simp [h]
    · simp [h]

/-- Witness for C1 at a concrete blinker configuration. -/
theorem computeNextGeneration_rule_witness :
    cell? (computeNextGeneration 3 [[0, 0, 0], [1, 1, 1], [0, 0, 0]]) 1 0 = some 1 ↔
      ((cell? [[0, 0, 0], [1, 1, 1], [0, 0, 0]] 1 0 = some 1 ∧
          (countNeighbors 3 [[0, 0, 0], [1, 1, 1], [0, 0, 0]] 1 0 = 2 ∨
           countNeighbors 3 [[0, 0, 0], [1, 1, 1], [0, 0, 0]] 1 0 = 3)) ∨
       (cell? [[0, 0, 0], [1, 1, 1], [0, 0, 0]] 1 0 = some 0 ∧
          countNeighbors 3 [[0, 0, 0], [1, 1, 1], [0, 0, 0]] 1 0 = 3)) :=
  computeNextGeneration_rule 3 [[0, 0, 0], [1, 1, 1], [0, 0, 0]]
    (by decide) (by decide) 1 0 (by decide) (by decide)

lemma tmod_shift_eq_emod {N : Nat} (hN : 1 ≤ N) {x : Int} (hx : -(N : Int) ≤ x) :
    (x + N).tmod N = x % N := by
  rw [Int.tmod_eq_emod (by omega) (by omega),
    show (x + N) = x + N * 1 by ring, Int.add_mul_emod_self_left]

/-- C7 (amended).  `getCell` is defined and returns the state at the wrapped
coordinates `(x mod N, y mod N)` for all integers `x, y ≥ -N`.  (The claim's
"arbitrary magnitude" fails below `-N`: the source adds `N` only once before
applying the truncating `%`, see `getCell?_below_negN_counterexample`.) -/
theorem getCell?_wraps_of_ge_negN (N : Nat) (g : Grid) (x y : Int)
    (hN : 1 ≤ N) (hwf : WFGrid N g) (hx : -(N : Int) ≤ x) (hy : -(N : Int) ≤ y) :
    getCell? N g x y = cell? g (x % (N : Int)).toNat (y % (N : Int)).toNat ∧
      (getCell? N g x y).isSome = true := by
  have hNpos : (0 : Int) < N := by omega
  have hx' := tmod_shift_eq_emod hN hx
  have hy' := tmod_shift_eq_emod hN hy
  have hxnn : 0 ≤ x % (N : Int) := Int.emod_nonneg x (by omega)
  have hynn : 0 ≤ y % (N : Int) := Int.emod_nonneg y (by omega)
  have hxlt : (x % (N : Int)).toNat < N := by
    have := Int.emod_lt_of_pos x hNpos; omega
  have hylt : (y % (N : Int)).toNat < N := by
    have := Int.emod_lt_of_pos y hNpos; omega
  have heq : getCell? N g x y = cell? g (x % (N : Int)).toNat (y % (N : Int)).toNat := by
    simp [getCell?, hx', hy', hxnn, hynn]
  refine ⟨heq, ?_⟩
  rw [heq]
  obtain ⟨v, hv⟩ := cell?_of_wf hwf hxlt hylt
  simp [hv]

/-- Witness for C7's amended statement at concrete in-window inputs. -/
theorem getCell?_wraps_witness :
    getCell? 2 [[0, 1], [1, 0]] (-1) 3 =
        cell? [[0, 1], [1, 0]] (((-1 : Int) % 2).toNat) (((3 : Int) % 2).toNat) ∧
      (getCell? 2 [[0, 1], [1, 0]] (-1) 3).isSome = true :=
  getCell?_wraps_of_ge_negN 2 [[0, 1], [1, 0]] (-1) 3
    (by decide) (by decide) (by decide) (by decide)

/-- C7 counterexample.  At `N = 2`, `x = -3` (a legal integer of magnitude
beyond the grid bounds) the lookup indexes outside the grid and is undefined,
instead of returning the state at the wrapped coordinates `(1, 0)`, which
is alive. -/
theorem getCell?_below_negN_counterexample :
    getCell? 2 [[0, 1], [1, 0]] (-3) 0 = none ∧
      cell? [[0, 1], [1, 0]] (((-3 : Int) % 2).toNat) (((0 : Int) % 2).toNat) =
        some 1 := by
  decide

/-- C8 (amended).  Initialization never fails and performs no validation:
for every `size` (including non-positive) and every `density` (including
values outside `[0, 1]`) `reset` returns a `max size 0 × max size 0` grid
whose cell `(x, y)` is alive exactly when the random draw for it is below
`density`.  A non-positive size yields the empty grid rather than an
`InvalidConfig` failure. -/
theorem reset_total (size : Int) (density : ℚ) (r : Nat → Nat → ℚ) :
    WFGrid size.toNat (reset size density r) ∧
      ∀ y x : Nat, y < size.toNat → x < size.toNat →
        cell? (reset size density r) x y =
          some (if r y x < density then 1 else 0) := by
  constructor
  · constructor
    · simp [reset]
    · intro row hrow
      simp only [reset, List.mem_map] at hrow
      obtain ⟨y, _, hy⟩ := hrow
      simp [← hy]
  · intro y x hy hx
    exact cell?_mapGrid (fun x y => if r y x < density then 1 else 0) hx hy

/-- Witness for C8's amended statement at a concrete invalid density. -/
theorem reset_total_witness :
    WFGrid (1 : Int).toNat (reset 1 2 (fun _ _ => (0 : ℚ))) ∧
      cell? (reset 1 2 (fun _ _ => (0 : ℚ))) 0 0 =
        some (if (0 : ℚ) < 2 then 1 else 0) :=
  ⟨(reset_total 1 2 (fun _ _ => (0 : ℚ))).1,
   (reset_total 1 2 (fun _ _ => (0 : ℚ))).2 0 0 (by decide) (by decide)⟩

/-- C8 counterexample.  A non-positive size and a density outside `[0, 1]` do
not fail with `InvalidConfig`: the call completes normally (the source has no
validation and no error path), returning the empty grid for `size = -1` and a
fully populated 1×1 grid for the out-of-range density 2. -/
theorem reset_no_validation_counterexample :
    reset (-1) 2 (fun _ _ => (0 : ℚ)) = [] ∧
      reset 1 2 (fun _ _ => (0 : ℚ)) = [[1]] := by
  constructor
  · rfl
  · decide

lemma mem_cellPairs {N x y : Nat} : (x, y) ∈ cellPairs N ↔ x < N ∧ y < N := by
  simp only [cellPairs, List.mem_flatMap, List.mem_map, List.mem_range, Prod.mk.injEq]
  constructor
  · rintro ⟨b, hb, a, ha, hax, hby⟩
    omega
  · rintro ⟨hx, hy⟩
    exact ⟨y, hy, x, hx, rfl, rfl⟩

/-- C9.  For grids of equal `N × N` dimensions, `getChangedCells` returns
exactly the coordinates at which the two grids differ, each with the new
grid's value there, and the empty list for identical grids. -/
theorem getChangedCells_spec (N : Nat) (oldG newG : Grid)
    (hwfo : WFGrid N oldG) (hwfn : WFGrid N newG) :
    (∀ x y s, (⟨x, y, s⟩ : ChangedCell) ∈ getChangedCells N oldG newG ↔
       (x < N ∧ y < N ∧ cell? oldG x y ≠ cell? newG x y ∧ s = cell? newG x y)) ∧
    (oldG = newG → getChangedCells N oldG newG = []) := by
  constructor
  · intro x y s
    simp only [getChangedCells, List.mem_filterMap]
    constructor
    · rintro ⟨c, hc, hsome⟩
      by_cases hne : cell? oldG c.1 c.2 ≠ cell? newG c.1 c.2
      · rw [if_pos hne] at hsome
        obtain ⟨hx, hy, hs⟩ := ChangedCell.mk.injEq _ _ _ _ _ _ ▸ (Option.some.injEq _ _ ▸ hsome)
        subst hx; subst hy; subst hs
        have := mem_cellPairs.mp (show (c.1, c.2) ∈ cellPairs N from by simpa using hc)
        exact ⟨this.1, this.2, hne, rfl⟩
      · rw [if_neg hne] at hsome
        exact absurd hsome (by simp)
    · rintro ⟨hx, hy, hne, hs⟩
      refine ⟨(x, y), mem_cellPairs.mpr ⟨hx, hy⟩, ?_⟩
      rw [if_pos hne, hs]
  · intro heq
    subst heq
    simp [getChangedCells, List.filterMap_eq_nil]

/-- Witness for C9 at concrete 2×2 grids differing in one cell. -/
theorem getChangedCells_spec_witness :
    ((⟨1, 0, some 1⟩ : ChangedCell) ∈ getChangedCells 2 [[0, 0], [0, 0]] [[0, 1], [0, 0]] ↔
       (1 < 2 ∧ 0 < 2 ∧ cell? [[0, 0], [0, 0]] 1 0 ≠ cell? [[0, 1], [0, 0]] 1 0 ∧
          (some 1 : Option Nat) = cell? [[0, 1], [0, 0]] 1 0)) ∧
      ([[0, 0], [0, 0]] = ([[0, 1], [0, 0]] : Grid) →
        getChangedCells 2 [[0, 0], [0, 0]] [[0, 1], [0, 0]] = []) :=
  ⟨(getChangedCells_spec 2 [[0, 0], [0, 0]] [[0, 1], [0, 0]] (by decide) (by decide)).1 1 0 (some 1),
   (getChangedCells_spec 2 [[0, 0], [0, 0]] [[0, 1], [0, 0]] (by decide) (by decide)).2⟩

/-! ## Component clustering (`identifyOrganismGroups` of `src/blobVisualizer.js`)

The routine walks `this.blobs` (a list of blob objects carrying grid
coordinates) and, for each unvisited one, BFS-floods its connected component,
looking neighbours up in `this.blobsMap` (an object keyed by the string
`"x,y"`, i.e. a finite map keyed by coordinates — modelled by the `Finset` of
its keys, since only membership is consulted) and marking visited cells in an
object with the same keys.  Blob object references are modelled by their
coordinates.  The cosmetic per-organism colour (`palette[id % 6]`) is omitted.
-/

/-- A cell coordinate, the value content of the `"x,y"` keys. -/
abbrev Coord := Nat × Nat

/-- `(u + d + this.game.size) % this.game.size` for an axis coordinate `u` and
offset `d`.  At every call the source makes, `u ∈ [0, N)` and `d ∈ [-1, 1]`,
so the operand is nonnegative and the truncating JavaScript `%` agrees with
`Int.emod`, which the embedding uses. -/
def wrapAdd (N : Nat) (u : Nat) (d : Int) : Nat :=
  (((u : Int) + d + N) % N).toNat

/-- The 8 toroidally wrapped neighbours of a cell, in source scan order. -/
def neighborsOf (N : Nat) (c : Coord) : List Coord :=
  offsets.map (fun d => (wrapAdd N c.1 d.1, wrapAdd N c.2 d.2))

/-- One organism: its id (`currentOrganismId` at discovery) and its member
cells in BFS dequeue order (`organism.blobs`). -/
structure Organism where
  id : Nat
  blobs : List Coord
deriving DecidableEq

/-- Processing one neighbour inside the BFS loop: if it is a live cell
(present in `blobsMap`) and unvisited, it is enqueued (`queue.push`) and
immediately marked visited. -/
def bfsStep (live : Finset Coord) (p : List Coord × Finset Coord) (n : Coord) :
    List Coord × Finset Coord :=
  if n ∈ live ∧ n ∉ p.2 then (p.1 ++ [n], insert n p.2) else p

/-- The source's `while (queue.length > 0)` loop: dequeue (`queue.shift()`)
the head, record it as a member, and fold `bfsStep` over its 8 neighbours.
The loop terminates because `queue.length + |live \ visited|` drops by exactly
one per iteration; that quantity is supplied as structural fuel, so the
function is defined by structural recursion and computes by kernel
reduction. -/
def bfs (N : Nat) (live : Finset Coord) :
    Nat → List Coord → Finset Coord → List Coord × Finset Coord
  | 0, _, v => ([], v)
  | _ + 1, [], v => ([], v)
  | f + 1, c :: rest, v =>
    let p := (neighborsOf N c).foldl (bfsStep live) (rest, v)
    let r := bfs N live f p.1 p.2
    (c :: r.1, r.2)

/-- A BFS run with exactly the sufficient fuel (`bfs_measure_const` below). -/
def bfsFrom (N : Nat) (live : Finset Coord) (q : List Coord) (v : Finset Coord) :
    List Coord × Finset Coord :=
  bfs N live (q.length + (live \ v).card) q v

/-- The outer `this.blobs.forEach`: skip visited blobs, otherwise start a new
organism with the next id, seed the queue with the blob (marking it visited),
flood, and append the organism. -/
def groupsGo (N : Nat) (live : Finset Coord) :
    List Coord → Finset Coord → Nat → List Organism
  | [], _, _ => []
  | b :: bs, v, i =>
    if b ∈ v then groupsGo N live bs v i
    else
      let r := bfsFrom N live [b] (insert b v)
      ⟨i, r.1⟩ :: groupsGo N live bs r.2 (i + 1)

/-- `identifyOrganismGroups()`: iterate over the blob list with an initially
empty visited set and id counter 0.  `blobs` is the iteration list
(`this.blobs`, as coordinates) and `live` the key set of `this.blobsMap` used
for neighbour lookups. -/
def identifyOrganismGroups (N : Nat) (blobs : List Coord) (live : Finset Coord) :
    List Organism :=
  groupsGo N live blobs ∅ 0

/-! ### Clustering lemmas -/

lemma wrapAdd_lt {N : Nat} (hN : 1 ≤ N) (u : Nat) (d : Int) : wrapAdd N u d < N := by
  have h := Int.emod_lt_of_pos ((u : Int) + d + N) (show (0 : Int) < N by omega)
  have h' := Int.emod_nonneg ((u : Int) + d + N) (show (N : Int) ≠ 0 by omega)
  simp only [wrapAdd]
  omega

lemma wrapAdd_neg {N u : Nat} (hN : 1 ≤ N) (hu : u < N) (d : Int) :
    wrapAdd N (wrapAdd N u d) (-d) = u := by
  have hNz : (N : Int) ≠ 0 := by omega
  simp only [wrapAdd]
  rw [Int.toNat_of_nonneg (Int.emod_nonneg _ hNz)]
  have key : (((u : Int) + d + N) % N + -d + N) % N = (u : Int) := by
    rw [show (((u : Int) + d + N) % N + -d + N) = (((u : Int) + d + N) % N + (-d + N)) by ring,
      Int.add_emod, Int.emod_emod_of_dvd _ dvd_rfl, ← Int.add_emod,
      show ((u : Int) + d + N + (-d + N)) = u + N * 2 by ring, Int.add_mul_emod_self_left,
      Int.emod_eq_of_lt (by omega) (by omega)]
  rw [key]
  omega

lemma offsets_neg : ∀ d ∈ offsets, (-d.1, -d.2) ∈ offsets := by decide

lemma neighborsOf_symm {N : Nat} (hN : 1 ≤ N) {a b : Coord}
    (ha1 : a.1 < N) (ha2 : a.2 < N) (hb : b ∈ neighborsOf N a) :
    a ∈ neighborsOf N b := by
  simp only [neighborsOf, List.mem_map] at hb ⊢
  obtain ⟨d, hd, hbd⟩ := hb
  refine ⟨(-d.1, -d.2), offsets_neg d hd, ?_⟩
  subst hbd
  simp only
  rw [wrapAdd_neg hN ha1 d.1, wrapAdd_neg hN ha2 d.2]

lemma bfsStep_foldl (live : Finset Coord) (ns : List Coord) :
    ∀ (q : List Coord) (v : Finset Coord), ∃ d : List Coord,
      (ns.foldl (bfsStep live) (q, v)).1 = q ++ d ∧
      (ns.foldl (bfsStep live) (q, v)).2 = v ∪ d.toFinset ∧
      d.Nodup ∧
      (∀ n ∈ d, n ∈ live) ∧
      (∀ n ∈ d, n ∉ v) ∧
      (∀ n ∈ ns, n ∈ live → n ∈ (ns.foldl (bfsStep live) (q, v)).2) := by
  induction ns with
  | nil =>
    intro q v
    exact ⟨[], by simp⟩
  | cons n ns ih =>
    intro q v
    by_cases h : n ∈ live ∧ n ∉ v
    · have hstep : bfsStep live (q, v) n = (q ++ [n], insert n v) := by
        simp [bfsStep, h]
      obtain ⟨d, h1, h2, h3, h4, h5, h6⟩ := ih (q ++ [n]) (insert n v)
      refine ⟨n :: d, ?_, ?_, ?_, ?_, ?_, ?_⟩
      · rw [List.foldl_cons, hstep, h1, List.append_assoc]
        rfl
      · rw [List.foldl_cons, hstep, h2]
        ext a
        simp only [Finset.mem_union, Finset.mem_insert, List.mem_toFinset, List.mem_cons]
        tauto
      · exact List.nodup_cons.mpr ⟨fun hmem => h5 n hmem (Finset.mem_insert_self n v), h3⟩
      · intro m hm
        rcases List.mem_cons.mp hm with rfl | hm'
        · exact h.1
        · exact h4 m hm'
      · intro m hm
        rcases List.mem_cons.mp hm with rfl | hm'
        · exact h.2
        · intro hmv
          exact h5 m hm' (Finset.mem_insert_of_mem hmv)
      · intro m hm hml
        rcases List.mem_cons.mp hm with rfl | hm'
        · rw [List.foldl_cons, hstep, h2]
          exact Finset.mem_union_left _ (Finset.mem_insert_self m v)
        · rw [List.foldl_cons, hstep]
          exact h6 m hm' hml
    · have hstep : bfsStep live (q, v) n = (q, v) := by
        simp only [bfsStep, if_neg h]
      obtain ⟨d, h1, h2, h3, h4, h5, h6⟩ := ih q v
      refine ⟨d, ?_, ?_, h3, h4, h5, ?_⟩
      · rw [List.foldl_cons, hstep, h1]
      · rw [List.foldl_cons, hstep, h2]
      · intro m hm hml
        rcases List.mem_cons.mp hm with rfl | hm'
        · have hmv : m ∈ v := by
            by_contra hmv
            exact h ⟨hml, hmv⟩
          rw [List.foldl_cons, hstep, h2]
          exact Finset.mem_union_left _ hmv
        · rw [List.foldl_cons, hstep]
          exact h6 m hm' hml

lemma bfs_succ_cons (N : Nat) (live : Finset Coord) (f : Nat) (c : Coord)
    (rest : List Coord) (v : Finset Coord) :
    bfs N live (f + 1) (c :: rest) v =
      (c :: (bfs N live f ((neighborsOf N c).foldl (bfsStep live) (rest, v)).1
          ((neighborsOf N c).foldl (bfsStep live) (rest, v)).2).1,
       (bfs N live f ((neighborsOf N c).foldl (bfsStep live) (rest, v)).1
          ((neighborsOf N c).foldl (bfsStep live) (rest, v)).2).2) := by
  rw [bfs]

set_option maxHeartbeats 1600000 in
lemma bfs_spec (N : Nat) (live : Finset Coord) :
    ∀ (f : Nat) (q : List Coord) (v : Finset Coord),
      q.length + (live \ v).card ≤ f → q.Nodup → (∀ c ∈ q, c ∈ v) →
      (bfs N live f q v).1.Nodup ∧
      (bfs N live f q v).1.toFinset = q.toFinset ∪ ((bfs N live f q v).2 \ v) ∧
      v ⊆ (bfs N live f q v).2 ∧
      (bfs N live f q v).2 \ v ⊆ live ∧
      (∀ c ∈ (bfs N live f q v).1, ∀ n ∈ neighborsOf N c, n ∈ live →
        n ∈ (bfs N live f q v).2) := by
  intro f
  induction f with
  | zero =>
    intro q v hf hnd hqv
    have hq : q = [] := by
      cases q with
      | nil => rfl
      | cons a l => simp at hf
    subst hq
    simp [bfs]
  | succ f ih =>
    intro q v hf hnd hqv
    cases q with
    | nil => simp [bfs]
    | cons c rest =>
      rw [bfs_succ_cons]
      obtain ⟨d, hd1, hd2, hd3, hd4, hd5, hd6⟩ :=
        bfsStep_foldl live (neighborsOf N c) rest v
      generalize hP : (neighborsOf N c).foldl (bfsStep live) (rest, v) = p
        at hd1 hd2 hd6 ⊢
      have hcv : c ∈ v := hqv c (List.mem_cons_self c rest)
      have hcrest : c ∉ rest := (List.nodup_cons.mp hnd).1
      have hcd : c ∉ d := fun h => hd5 c h hcv
      have hdsub : d.toFinset ⊆ live \ v := by
        intro a ha
        rw [List.mem_toFinset] at ha
        exact Finset.mem_sdiff.mpr ⟨hd4 a ha, hd5 a ha⟩
      have hcard : (live \ p.2).card = (live \ v).card - d.length := by
        have hset : live \ p.2 = (live \ v) \ d.toFinset := by
          rw [hd2]
          ext a
          simp only [Finset.mem_sdiff, Finset.mem_union, List.mem_toFinset]
          tauto
        rw [hset, Finset.card_sdiff hdsub, List.toFinset_card_of_nodup hd3]
      have hdlen : d.length ≤ (live \ v).card := by
        have := Finset.card_le_card hdsub
        rw [List.toFinset_card_of_nodup hd3] at this
        exact this
      have hmeas : p.1.length + (live \ p.2).card ≤ f := by
        rw [hd1, List.length_append, hcard]
        simp only [List.length_cons] at hf
        omega
      have hpnd : p.1.Nodup := by
        rw [hd1, List.nodup_append]
        refine ⟨(List.nodup_cons.mp hnd).2, hd3, ?_⟩
        intro a ha ha'
        exact hd5 a ha' (hqv a (List.mem_cons_of_mem c ha))
      have hpv : ∀ a ∈ p.1, a ∈ p.2 := by
        intro a ha
        rw [hd1, List.mem_append] at ha
        rw [hd2]
        rcases ha with ha | ha
        · exact Finset.mem_union_left _ (hqv a (List.mem_cons_of_mem c ha))
        · exact Finset.mem_union_right _ (List.mem_toFinset.mpr ha)
      obtain ⟨R1, R2, R3, R4, R5⟩ := ih p.1 p.2 hmeas hpnd hpv
      have hcp2 : c ∈ p.2 := by rw [hd2]; exact Finset.mem_union_left _ hcv
      have hv_p2 : v ⊆ p.2 := by rw [hd2]; exact Finset.subset_union_left
      refine ⟨?_, ?_, ?_, ?_, ?_⟩
      · refine List.nodup_cons.mpr ⟨?_, R1⟩
        intro hc
        have := R2 ▸ List.mem_toFinset.mpr hc
        rw [Finset.mem_union] at this
        rcases this with h | h
        · rw [List.mem_toFinset, hd1, List.mem_append] at h
          rcases h with h | h
          · exact hcrest h
          · exact hcd h
        · exact (Finset.mem_sdiff.mp h).2 hcp2
      · ext a
        have hp2 : a ∈ p.2 ↔ a ∈ v ∨ a ∈ d := by
          rw [hd2]; simp [Finset.mem_union, List.mem_toFinset]
        have hp1 : a ∈ p.1 ↔ a ∈ rest ∨ a ∈ d := by
          rw [hd1]; exact List.mem_append
        have h2 : a ∈ d → a ∈ (bfs N live f p.1 p.2).2 :=
          fun h => R3 (hp2.mpr (Or.inr h))
        have h3 : a ∈ d → a ∉ v := hd5 a
        have hA : a ∈ (bfs N live f p.1 p.2).1 ↔
            a ∈ p.1 ∨ (a ∈ (bfs N live f p.1 p.2).2 ∧ a ∉ p.2) := by
          rw [← List.mem_toFinset, R2]
          simp [Finset.mem_union, Finset.mem_sdiff]
        simp only [List.toFinset_cons, Finset.mem_insert, List.mem_toFinset,
          Finset.mem_union, Finset.mem_sdiff, List.mem_cons]
        rw [hA, hp1, hp2]
        tauto
      · exact fun a ha => R3 (hv_p2 ha)
      · intro a ha
        rw [Finset.mem_sdiff] at ha
        by_cases hap : a ∈ p.2
        · rw [hd2, Finset.mem_union] at hap
          rcases hap with h | h
          · exact absurd h ha.2
          · exact hd4 a (List.mem_toFinset.mp h)
        · exact R4 (Finset.mem_sdiff.mpr ⟨ha.1, hap⟩)
      · intro a ha n hn hnl
        rcases List.mem_cons.mp ha with rfl | ha'
        · exact R3 (hd6 n hn hnl)
        · exact R5 a ha' n hn hnl

lemma bfsFrom_spec (N : Nat) (live : Finset Coord) (q : List Coord) (v : Finset Coord)
    (hnd : q.Nodup) (hqv : ∀ c ∈ q, c ∈ v) :
    (bfsFrom N live q v).1.Nodup ∧
    (bfsFrom N live q v).1.toFinset = q.toFinset ∪ ((bfsFrom N live q v).2 \ v) ∧
    v ⊆ (bfsFrom N live q v).2 ∧
    (bfsFrom N live q v).2 \ v ⊆ live ∧
    (∀ c ∈ (bfsFrom N live q v).1, ∀ n ∈ neighborsOf N c, n ∈ live →
      n ∈ (bfsFrom N live q v).2) :=
  bfs_spec N live (q.length + (live \ v).card) q v le_rfl hnd hqv

lemma groupsGo_cons_skip (N : Nat) (live : Finset Coord) (b : Coord) (bs : List Coord)
    (v : Finset Coord) (i : Nat) (hbv : b ∈ v) :
    groupsGo N live (b :: bs) v i = groupsGo N live bs v i := by
  rw [groupsGo, if_pos hbv]

lemma groupsGo_cons_new (N : Nat) (live : Finset Coord) (b : Coord) (bs : List Coord)
    (v : Finset Coord) (i : Nat) (hbv : b ∉ v) :
    groupsGo N live (b :: bs) v i =
      ⟨i, (bfsFrom N live [b] (insert b v)).1⟩ ::
        groupsGo N live bs (bfsFrom N live [b] (insert b v)).2 (i + 1) := by
  rw [groupsGo, if_neg hbv]

set_option maxHeartbeats 1600000 in
lemma groupsGo_spec (N : Nat) (live : Finset Coord) (hN : 1 ≤ N)
    (hR : ∀ c ∈ live, c.1 < N ∧ c.2 < N) :
    ∀ (bs : List Coord) (v : Finset Coord) (i : Nat), (∀ b ∈ bs, b ∈ live) →
      (∀ o ∈ groupsGo N live bs v i, ∀ c ∈ o.blobs, c ∉ v) ∧
      (∀ o ∈ groupsGo N live bs v i, o.blobs.Nodup) ∧
      (∀ o ∈ groupsGo N live bs v i, ∀ c ∈ o.blobs, c ∈ live) ∧
      (∀ b ∈ bs, b ∈ v ∨ ∃ o ∈ groupsGo N live bs v i, b ∈ o.blobs) ∧
      List.Pairwise (fun o o' => ∀ c ∈ o.blobs, c ∉ o'.blobs) (groupsGo N live bs v i) ∧
      (groupsGo N live bs v i).map Organism.id =
        List.range' i (groupsGo N live bs v i).length ∧
      (∀ o ∈ groupsGo N live bs v i, ∀ c ∈ o.blobs,
        ∀ n ∈ neighborsOf N c, n ∈ live → n ∉ v → n ∈ o.blobs) := by
  intro bs
  induction bs with
  | nil =>
    intro v i _
    simp [groupsGo, List.range']
  | cons b bs ih =>
    intro v i hbs
    by_cases hbv : b ∈ v
    · rw [groupsGo_cons_skip N live b bs v i hbv]
      obtain ⟨B1, B2, B3, B4, B5, B6, B7⟩ :=
        ih v i (fun b' hb' => hbs b' (List.mem_cons_of_mem b hb'))
      exact ⟨B1, B2, B3,
        fun b' hb' => by
          rcases List.mem_cons.mp hb' with rfl | hb''
          · exact Or.inl hbv
          · exact B4 b' hb'',
        B5, B6, B7⟩
    · rw [groupsGo_cons_new N live b bs v i hbv]
      have hblive : b ∈ live := hbs b (List.mem_cons_self b bs)
      obtain ⟨F1, F2, F3, F4, F5⟩ := bfsFrom_spec N live [b] (insert b v)
        (List.nodup_singleton b) (by intro c hc; rw [List.mem_singleton.mp hc]; exact Finset.mem_insert_self b v)
      generalize hgen : bfsFrom N live [b] (insert b v) = r at F1 F2 F3 F4 F5 ⊢
      have hbmem : b ∈ r.1 := by
        rw [← List.mem_toFinset, F2]
        exact Finset.mem_union_left _ (by simp)
      have hms_live : ∀ c ∈ r.1, c ∈ live := by
        intro c hc
        rw [← List.mem_toFinset, F2, Finset.mem_union] at hc
        rcases hc with hc | hc
        · simp only [List.toFinset_cons, List.toFinset_nil] at hc
          have : c = b := by simpa using hc
          rw [this]; exact hblive
        · exact F4 hc
      have hms_nv : ∀ c ∈ r.1, c ∉ v := by
        intro c hc
        rw [← List.mem_toFinset, F2, Finset.mem_union] at hc
        rcases hc with hc | hc
        · have : c = b := by simpa using hc
          rw [this]; exact hbv
        · intro hcv
          exact (Finset.mem_sdiff.mp hc).2 (Finset.mem_insert_of_mem hcv)
      have hvf : ∀ a, a ∈ r.2 ↔ a ∈ v ∨ a ∈ r.1 := by
        intro a
        constructor
        · intro ha
          by_cases hav : a ∈ insert b v
          · rcases Finset.mem_insert.mp hav with rfl | hav'
            · exact Or.inr hbmem
            · exact Or.inl hav'
          · refine Or.inr ?_
            rw [← List.mem_toFinset, F2]
            exact Finset.mem_union_right _ (Finset.mem_sdiff.mpr ⟨ha, hav⟩)
        · intro ha
          rcases ha with ha | ha
          · exact F3 (Finset.mem_insert_of_mem ha)
          · rw [← List.mem_toFinset, F2, Finset.mem_union] at ha
            rcases ha with ha | ha
            · have : a = b := by simpa using ha
              rw [this]; exact F3 (Finset.mem_insert_self b v)
            · exact (Finset.mem_sdiff.mp ha).1
      obtain ⟨B1, B2, B3, B4, B5, B6, B7⟩ :=
        ih r.2 (i + 1) (fun b' hb' => hbs b' (List.mem_cons_of_mem b hb'))
      refine ⟨?_, ?_, ?_, ?_, ?_, ?_, ?_⟩
      · intro o ho c hc
        rcases List.mem_cons.mp ho with rfl | ho'
        · exact hms_nv c hc
        · intro hcv
          exact B1 o ho' c hc ((hvf c).mpr (Or.inl hcv))
      · intro o ho
        rcases List.mem_cons.mp ho with rfl | ho'
        · exact F1
        · exact B2 o ho'
      · intro o ho c hc
        rcases List.mem_cons.mp ho with rfl | ho'
        · exact hms_live c hc
        · exact B3 o ho' c hc
      · intro b' hb'
        rcases List.mem_cons.mp hb' with rfl | hb''
        · exact Or.inr ⟨⟨i, r.1⟩, List.mem_cons_self _ _, hbmem⟩
        · rcases B4 b' hb'' with hbv' | ⟨o, ho, hbo⟩
          · rcases (hvf b').mp hbv' with h | h
            · exact Or.inl h
            · exact Or.inr ⟨⟨i, r.1⟩, List.mem_cons_self _ _, h⟩
          · exact Or.inr ⟨o, List.mem_cons_of_mem _ ho, hbo⟩
      · refine List.pairwise_cons.mpr ⟨?_, B5⟩
        intro o ho c hc hco
        exact B1 o ho c hco ((hvf c).mpr (Or.inr hc))
      · simp only [List.map_cons, List.length_cons]
        rw [B6]
        rfl
      · intro o ho c hc n hn hnlive hnv
        rcases List.mem_cons.mp ho with rfl | ho'
        · have : n ∈ r.2 := F5 c hc n hn hnlive
          rcases (hvf n).mp this with h | h
          · exact absurd h hnv
          · exact h
        · by_cases hnr2 : n ∈ r.2
          · exfalso
            rcases (hvf n).mp hnr2 with h | h
            · exact hnv h
            · have hclive : c ∈ live := B3 o ho' c hc
              have hcin : c ∈ neighborsOf N n :=
                neighborsOf_symm hN (hR c hclive).1 (hR c hclive).2 hn
              have : c ∈ r.2 := F5 n h c hcin hclive
              exact B1 o ho' c hc this
          · exact B7 o ho' c hc n hn hnlive hnr2

/-- The claim's per-axis toroidal closeness: the two coordinates differ by at
most 1 modulo `N` (difference congruent to 0, 1 or N-1). -/
def axisClose (N : Nat) (u w : Nat) : Prop :=
  ((w : Int) - u) % N = 0 ∨ ((w : Int) - u) % N = 1 ∨ ((w : Int) - u) % N = (N : Int) - 1

/-- The claim's cell adjacency: distinct cells whose coordinates differ by at
most 1 modulo `N` in each axis. -/
def toroidallyAdjacent (N : Nat) (a b : Coord) : Prop :=
  a ≠ b ∧ axisClose N a.1 b.1 ∧ axisClose N a.2 b.2

instance : Decidable (axisClose N u w) := by
  unfold axisClose; infer_instance

instance : Decidable (toroidallyAdjacent N a b) := by
  unfold toroidallyAdjacent; infer_instance

lemma wrapAdd_zero {N u : Nat} (hu : u < N) : wrapAdd N u 0 = u := by
  simp only [wrapAdd, add_zero]
  rw [show ((u : Int) + N) = u + N * 1 by ring, Int.add_mul_emod_self_left,
    Int.emod_eq_of_lt (by omega) (by omega)]
  omega

lemma axisClose_cases {N : Nat} (hN : 1 ≤ N) {u w : Nat} (hu : u < N) (hw : w < N)
    (h : axisClose N u w) :
    w = u ∨ w = wrapAdd N u 1 ∨ w = wrapAdd N u (-1) := by
  have hNz : (N : Int) ≠ 0 := by omega
  have hwmod : (w : Int) % N = w := Int.emod_eq_of_lt (by omega) (by omega)
  rcases h with h0 | h1 | hm
  · left
    rcases le_or_lt (u : Int) w with hle | hlt
    · rw [Int.emod_eq_of_lt (by omega) (by omega)] at h0
      omega
    · exfalso
      have hsh : ((w : Int) - u) % N = ((w : Int) - u + N * 1) % N :=
        (Int.add_mul_emod_self_left ((w : Int) - u) N 1).symm
      rw [hsh, Int.emod_eq_of_lt (by omega) (by omega)] at h0
      omega
  · right; left
    have hwu : ((u : Int) + 1) % N = (w : Int) % N := by
      calc ((u : Int) + 1) % N
          = (u + (((w : Int) - u) % N)) % N := by rw [h1]
        _ = (u % N + (((w : Int) - u) % N % N)) % N := by rw [Int.add_emod]
        _ = (u % N + (((w : Int) - u) % N)) % N := by
            rw [Int.emod_emod_of_dvd _ dvd_rfl]
        _ = (u + ((w : Int) - u)) % N := by rw [← Int.add_emod]
        _ = (w : Int) % N := by rw [show (u : Int) + ((w : Int) - u) = w by ring]
    simp only [wrapAdd]
    have harith : ((u : Int) + 1 + N) % N = ((u : Int) + 1) % N := by
      rw [show ((u : Int) + 1 + N) = (u + 1) + N * 1 by ring, Int.add_mul_emod_self_left]
    rw [harith]
    omega
  · right; right
    have hNm : ((N : Int) - 1) % N = (N : Int) - 1 := Int.emod_eq_of_lt (by omega) (by omega)
    have hwu : ((u : Int) + -1 + N) % N = (w : Int) % N := by
      calc ((u : Int) + -1 + N) % N
          = ((u + ((N : Int) - 1)) % N) := by ring_nf
        _ = (u + (((w : Int) - u) % N)) % N := by rw [hm]
        _ = (u % N + (((w : Int) - u) % N % N)) % N := by rw [Int.add_emod]
        _ = (u % N + (((w : Int) - u) % N)) % N := by
            rw [Int.emod_emod_of_dvd _ dvd_rfl]
        _ = (u + ((w : Int) - u)) % N := by rw [← Int.add_emod]
        _ = (w : Int) % N := by rw [show (u : Int) + ((w : Int) - u) = w by ring]
    simp only [wrapAdd]
    omega

lemma mem_neighborsOf_of_adjacent {N : Nat} (hN : 1 ≤ N) {a b : Coord}
    (ha1 : a.1 < N) (ha2 : a.2 < N) (hb1 : b.1 < N) (hb2 : b.2 < N)
    (hadj : toroidallyAdjacent N a b) : b ∈ neighborsOf N a := by
  obtain ⟨hne, hx, hy⟩ := hadj
  have hcx := axisClose_cases hN ha1 hb1 hx
  have hcy := axisClose_cases hN ha2 hb2 hy
  have hmem : ∀ dx dy : Int, (dx, dy) ∈ offsets →
      b.1 = wrapAdd N a.1 dx → b.2 = wrapAdd N a.2 dy → b ∈ neighborsOf N a := by
    intro dx dy hoff h1 h2
    simp only [neighborsOf, List.mem_map]
    exact ⟨(dx, dy), hoff, by rw [← h1, ← h2]⟩
  rcases hcx with h1 | h1 | h1 <;> rcases hcy with h2 | h2 | h2
  · exact absurd (Prod.ext h1.symm h2.symm) hne
  · exact hmem 0 1 (by decide) (by rw [wrapAdd_zero ha1]; exact h1) h2
  · exact hmem 0 (-1) (by decide) (by rw [wrapAdd_zero ha1]; exact h1) h2
  · exact hmem 1 0 (by decide) h1 (by rw [wrapAdd_zero ha2]; exact h2)
  · exact hmem 1 1 (by decide) h1 h2
  · exact hmem 1 (-1) (by decide) h1 h2
  · exact hmem (-1) 0 (by decide) h1 (by rw [wrapAdd_zero ha2]; exact h2)
  · exact hmem (-1) 1 (by decide) h1 h2
  · exact hmem (-1) (-1) (by decide) h1 h2

/-- C2.  For every grid size `N ≥ 1` and every set of live cells, clustering
produces organisms in which every live cell appears in exactly one organism's
member list (coverage, uniqueness across organisms, and no duplicates within a
list), no organism contains a dead cell, and ids are the contiguous integers
from 0 in BFS discovery order; on the 10×10 grid with live cells
(0,0), (0,1), (5,5) it returns exactly the two organisms of the claim. -/
theorem identifyOrganismGroups_partition (N : Nat) (blobs : List Coord)
    (hN : 1 ≤ N) (hR : ∀ c ∈ blobs, c.1 < N ∧ c.2 < N) :
    (∀ c ∈ blobs, ∃ o ∈ identifyOrganismGroups N blobs blobs.toFinset, c ∈ o.blobs) ∧
    (∀ o ∈ identifyOrganismGroups N blobs blobs.toFinset,
       ∀ o' ∈ identifyOrganismGroups N blobs blobs.toFinset,
         ∀ c, c ∈ o.blobs → c ∈ o'.blobs → o = o') ∧
    (∀ o ∈ identifyOrganismGroups N blobs blobs.toFinset, o.blobs.Nodup) ∧
    (∀ o ∈ identifyOrganismGroups N blobs blobs.toFinset, ∀ c ∈ o.blobs, c ∈ blobs) ∧
    ((identifyOrganismGroups N blobs blobs.toFinset).map Organism.id =
      List.range (identifyOrganismGroups N blobs blobs.toFinset).length) ∧
    identifyOrganismGroups 10 [(0, 0), (0, 1), (5, 5)]
        (([(0, 0), (0, 1), (5, 5)] : List Coord).toFinset) =
      [⟨0, [(0, 0), (0, 1)]⟩, ⟨1, [(5, 5)]⟩] := by
  have hR' : ∀ c ∈ blobs.toFinset, c.1 < N ∧ c.2 < N :=
    fun c hc => hR c (List.mem_toFinset.mp hc)
  obtain ⟨A1, A2, A3, A4, A5, A6, A7⟩ :=
    groupsGo_spec N blobs.toFinset hN hR' blobs ∅ 0
      (fun b hb => List.mem_toFinset.mpr hb)
  simp only [identifyOrganismGroups]
  refine ⟨?_, ?_, A2, ?_, ?_, by decide⟩
  · intro c hc
    rcases A4 c hc with h | h
    · exact absurd h (Finset.not_mem_empty c)
    · exact h
  · have hsymm : Symmetric (fun o o' : Organism => ∀ c ∈ o.blobs, c ∉ o'.blobs) := by
      intro o o' h c hc hc'
      exact h c hc' hc
    intro o ho o' ho' c hc hc'
    by_contra hne
    exact A5.forall hsymm ho ho' hne c hc hc'
  · intro o ho c hc
    exact List.mem_toFinset.mp (A3 o ho c hc)
  · rw [A6]
    exact (List.range_eq_range' _).symm

/-- Witness for C2 at a concrete wrap-connected pair on a 2×2 grid. -/
theorem identifyOrganismGroups_partition_witness :
    (identifyOrganismGroups 2 [(0, 0), (1, 1)]
        (([(0, 0), (1, 1)] : List Coord).toFinset)).map Organism.id =
      List.range (identifyOrganismGroups 2 [(0, 0), (1, 1)]
        (([(0, 0), (1, 1)] : List Coord).toFinset)).length :=
  (identifyOrganismGroups_partition 2 [(0, 0), (1, 1)]
    (by decide) (by decide)).2.2.2.2.1

/-- C3.  Clustering adjacency is toroidal with no special-casing of edges:
any two distinct live cells whose coordinates differ by at most 1 modulo `N`
in each axis end up in the same organism, and on the 10×10 grid the
wrap-adjacent live cells (0,0) and (9,9) form a single organism. -/
theorem identifyOrganismGroups_toroidal (N : Nat) (blobs : List Coord)
    (hN : 1 ≤ N) (hR : ∀ c ∈ blobs, c.1 < N ∧ c.2 < N)
    (a b : Coord) (ha : a ∈ blobs) (hb : b ∈ blobs)
    (hadj : toroidallyAdjacent N a b) :
    (∃ o ∈ identifyOrganismGroups N blobs blobs.toFinset,
       a ∈ o.blobs ∧ b ∈ o.blobs) ∧
    identifyOrganismGroups 10 [(0, 0), (9, 9)]
        (([(0, 0), (9, 9)] : List Coord).toFinset) = [⟨0, [(0, 0), (9, 9)]⟩] := by
  have hR' : ∀ c ∈ blobs.toFinset, c.1 < N ∧ c.2 < N :=
    fun c hc => hR c (List.mem_toFinset.mp hc)
  obtain ⟨A1, A2, A3, A4, A5, A6, A7⟩ :=
    groupsGo_spec N blobs.toFinset hN hR' blobs ∅ 0
      (fun b' hb' => List.mem_toFinset.mpr hb')
  refine ⟨?_, by decide⟩
  rcases A4 a ha with h | ⟨o, ho, hao⟩
  · exact absurd h (Finset.not_mem_empty a)
  · refine ⟨o, ho, hao, ?_⟩
    have hbn : b ∈ neighborsOf N a :=
      mem_neighborsOf_of_adjacent hN (hR a ha).1 (hR a ha).2 (hR b hb).1 (hR b hb).2 hadj
    exact A7 o ho a hao b hbn (List.mem_toFinset.mpr hb) (Finset.not_mem_empty b)

/-- Witness for C3: on a 2×2 grid, (0,0) and (1,1) are wrap-adjacent and land
in one organism. -/
theorem identifyOrganismGroups_toroidal_witness :
    ∃ o ∈ identifyOrganismGroups 2 [(0, 0), (1, 1)]
        (([(0, 0), (1, 1)] : List Coord).toFinset),
      (0, 0) ∈ o.blobs ∧ (1, 1) ∈ o.blobs :=
  (identifyOrganismGroups_toroidal 2 [(0, 0), (1, 1)] (by decide) (by decide)
    (0, 0) (1, 1) (by decide) (by decide) (by decide)).1

/-! ## Transition orchestrator (`BlobVisualizer` of `src/blobVisualizer.js`)

The embedding keeps the fields the transition logic reads and writes:
`this.blobs`, `this.blobsMap`, `this.organismGroups`, `this.pendingChanges`
and `this.isAnimating`.  A blob object is reduced to its grid coordinates and
the visibility of its mesh; structural equality models JavaScript reference
identity, and the two coincide under the key-uniqueness invariant proved for
C10.  The scene graph, meshes, radii, wobble data, the `isNew` flag, and the
entire metaball layer (`metaballsMap`, `createMetaballOrganisms`,
`updateMetaballPositions`) carry no bookkeeping content and are omitted.  The
promise-chained phases of `animateNextGeneration` are sequenced as the
composition of explicit step functions in source order; an event trace
records which phases a run performs.
-/

/-- A blob: grid coordinates plus mesh visibility (`mesh.visible`). -/
structure Blob where
  x : Nat
  y : Nat
  visible : Bool
deriving DecidableEq

/-- `this.blobsMap`: an object keyed by the string `"x,y"`, i.e. an
insertion-ordered association list on coordinates with unique keys. -/
abbrev BlobMap := List (Coord × Blob)

/-- Property access `this.blobsMap[key]`. -/
def mapLookup : BlobMap → Coord → Option Blob
  | [], _ => none
  | (k, b) :: rest, c => if k = c then some b else mapLookup rest c

/-- `delete this.blobsMap[key]` (object keys are unique, so deleting the
first binding deletes the binding). -/
def mapErase : BlobMap → Coord → BlobMap
  | [], _ => []
  | (k, b) :: rest, c => if k = c then rest else (k, b) :: mapErase rest c

/-- Assignment `this.blobsMap[key] = blob`: replace the existing binding or
append a new one. -/
def mapInsert : BlobMap → Coord → Blob → BlobMap
  | [], c, b => [(c, b)]
  | (k, b') :: rest, c, b =>
    if k = c then (c, b) :: rest else (k, b') :: mapInsert rest c b

/-- The change record `prepareNextGeneration` builds (`this.pendingChanges`). -/
structure Changes where
  appearingCells : List Coord
  disappearingCells : List Coord
  persistentCells : List Coord
  newBlobs : List Blob
  blobsToRemove : List Blob
deriving DecidableEq

/-- The `BlobVisualizer` fields the transition logic touches. -/
structure VisState where
  blobs : List Blob
  blobsMap : BlobMap
  organismGroups : List Organism
  pendingChanges : Option Changes
  isAnimating : Bool
deriving DecidableEq

/-- The coordinates of `this.blobs`, in array order. -/
def blobCoords (s : VisState) : List Coord :=
  s.blobs.map (fun b => (b.x, b.y))

/-- The key set of `this.blobsMap` (neighbour lookups only test presence). -/
def mapKeys (m : BlobMap) : Finset Coord :=
  (m.map (fun e => e.1)).toFinset

/-- The synchronous regroup step: `this.identifyOrganismGroups()`, which
iterates `this.blobs` and looks neighbours up in `this.blobsMap`. -/
def regroup (N : Nat) (s : VisState) : VisState :=
  { s with organismGroups :=
      identifyOrganismGroups N (blobCoords s) (mapKeys s.blobsMap) }

/-- One iteration of `prepareNextGeneration`'s double loop: classify the cell
by `(currentGrid[y][x], nextGrid[y][x])` with the source's strict `===`
comparisons; an appearing cell also gets an invisible placeholder blob, a
disappearing cell records the mapped blob if one exists. -/
def classifyCell (m : BlobMap) (cur next : Grid) (ch : Changes) (c : Coord) :
    Changes :=
  if cell? cur c.1 c.2 = some 0 ∧ cell? next c.1 c.2 = some 1 then
    { ch with appearingCells := ch.appearingCells ++ [c],
              newBlobs := ch.newBlobs ++ [⟨c.1, c.2, false⟩] }
  else if cell? cur c.1 c.2 = some 1 ∧ cell? next c.1 c.2 = some 0 then
    { ch with disappearingCells := ch.disappearingCells ++ [c],
              blobsToRemove := ch.blobsToRemove ++ (mapLookup m c).toList }
  else if cell? cur c.1 c.2 = some 1 ∧ cell? next c.1 c.2 = some 1 then
    { ch with persistentCells := ch.persistentCells ++ [c] }
  else ch

/-- The full classification pass over all `N × N` cells in scan order. -/
def computeChanges (N : Nat) (m : BlobMap) (cur next : Grid) : Changes :=
  (cellPairs N).foldl (classifyCell m cur next) ⟨[], [], [], [], []⟩

/-- `prepareNextGeneration(currentGrid, nextGrid)`: returns the busy signal
`false` with the state untouched while an animation is in flight
(`this.isAnimating`); otherwise stores the classification as
`this.pendingChanges` — overwriting any previous one — and returns `true`. -/
def prepareNextGeneration (N : Nat) (s : VisState) (cur next : Grid) :
    Bool × VisState :=
  if s.isAnimating then (false, s)
  else (true,
    { s with pendingChanges := some (computeChanges N s.blobsMap cur next) })

/-- Removing one dying blob in the post-shrink callback:
`delete this.blobsMap[key]; this.blobs = this.blobs.filter(b => b !== blob)`. -/
def removeBlob (s : VisState) (b : Blob) : VisState :=
  { s with blobsMap := mapErase s.blobsMap (b.x, b.y),
           blobs := s.blobs.filter (fun b' => b' ≠ b) }

/-- Adding one appearing blob:
`this.blobsMap[key] = blob; this.blobs.push(blob)`. -/
def addBlob (s : VisState) (b : Blob) : VisState :=
  { s with blobsMap := mapInsert s.blobsMap (b.x, b.y) b,
           blobs := s.blobs ++ [b] }

/-- The bookkeeping update the post-shrink callback performs before the
organisms are recomputed: every dying blob removed, then every new blob
added, in source order. -/
def bookkeepingUpdate (s : VisState) (ch : Changes) : VisState :=
  ch.newBlobs.foldl addBlob (ch.blobsToRemove.foldl removeBlob s)

/-- The grow-phase start: every appearing blob is made visible
(`blob.mesh.visible = true`).  The mutation hits blob objects aliased by both
collections, so the embedding applies the same value transformation to
both. -/
def growStart (s : VisState) (ch : Changes) : VisState :=
  { s with
      blobs := s.blobs.map (fun b =>
        if b ∈ ch.newBlobs then { b with visible := true } else b),
      blobsMap := s.blobsMap.map (fun e =>
        if e.2 ∈ ch.newBlobs then (e.1, { e.2 with visible := true }) else e) }

/-- The final grow-join callback: pending changes cleared, animation flag
dropped. -/
def finishTransition (s : VisState) : VisState :=
  { s with pendingChanges := none, isAnimating := false }

/-- The observable phases of one `animateNextGeneration` run, in order. -/
inductive PhaseEvent where
  | shrink (count : Nat)
  | regroup
  | grow (count : Nat)
deriving DecidableEq

/-- `animateNextGeneration()`: refuses (`false`, no phases) when there is no
pending transition or one is already animating; otherwise runs the shrink
join over the dying blobs, the bookkeeping update and organism recomputation,
then the grow join over the new blobs, and finishes back to the idle state.
The trace records the three phases with the sizes of the two joins. -/
def animateNextGeneration (N : Nat) (s : VisState) :
    Bool × VisState × List PhaseEvent :=
  match s.pendingChanges with
  | none => (false, s, [])
  | some ch =>
    if s.isAnimating then (false, s, [])
    else
      let s1 := bookkeepingUpdate { s with isAnimating := true } ch
      let s2 := regroup N s1
      let s3 := growStart s2 ch
      (true, finishTransition s3,
        [PhaseEvent.shrink ch.blobsToRemove.length, PhaseEvent.regroup,
         PhaseEvent.grow ch.newBlobs.length])

/-- `createBlobs()`: rebuild `this.blobs` and `this.blobsMap` from the grid's
live cells in scan order (visible blobs keyed by their coordinates), then
regroup. -/
def createBlobs (N : Nat) (g : Grid) (s : VisState) : VisState :=
  let bs := ((cellPairs N).filter
      (fun c => decide (cell? g c.1 c.2 = some 1))).map
    (fun c => Blob.mk c.1 c.2 true)
  regroup N { s with blobs := bs,
                     blobsMap := bs.foldl (fun m b => mapInsert m (b.x, b.y) b) [] }

/-- `resetBlobs(grid)`: clear all collections, pending changes and the
animation flag, then rebuild via `createBlobs`. -/
def resetBlobs (N : Nat) (g : Grid) (s : VisState) : VisState :=
  createBlobs N g { s with blobs := [], blobsMap := [], organismGroups := [],
                           pendingChanges := none, isAnimating := false }

/-! ### Association-list lemmas -/

lemma mapLookup_eq_none_iff (m : BlobMap) (k : Coord) :
    mapLookup m k = none ↔ k ∉ m.map (fun e => e.1) := by
  induction m with
  | nil => simp [mapLookup]
  | cons e rest ih =>
    obtain ⟨k', b⟩ := e
    by_cases h : k' = k
    · subst h
      simp [mapLookup]
    · simp only [mapLookup, if_neg h, List.map_cons, List.mem_cons, ih]
      constructor
      · rintro hn (h1 | h2)
        · exact h h1.symm
        · exact hn h2
      · intro hn
        exact fun h2 => hn (Or.inr h2)

lemma mapLookup_mem {m : BlobMap} {k : Coord} {b : Blob}
    (h : mapLookup m k = some b) : (k, b) ∈ m := by
  induction m with
  | nil => simp [mapLookup] at h
  | cons e rest ih =>
    obtain ⟨k', b'⟩ := e
    by_cases hk : k' = k
    · subst hk
      rw [mapLookup, if_pos rfl, Option.some.injEq] at h
      rw [← h]
      exact List.mem_cons_self _ _
    · rw [mapLookup, if_neg hk] at h
      exact List.mem_cons_of_mem _ (ih h)

lemma mapLookup_of_mem_nodup {m : BlobMap} {k : Coord} {b : Blob}
    (hnd : (m.map (fun e => e.1)).Nodup) (h : (k, b) ∈ m) :
    mapLookup m k = some b := by
  induction m with
  | nil => simp at h
  | cons e rest ih =>
    obtain ⟨k', b'⟩ := e
    rw [List.map_cons, List.nodup_cons] at hnd
    rcases List.mem_cons.mp h with heq | hmem
    · obtain ⟨h1, h2⟩ := Prod.mk.injEq _ _ _ _ ▸ heq
      rw [mapLookup, if_pos (by rw [h1])]
      rw [h2]
    · have hk : k' ≠ k := by
        intro hk
        subst hk
        exact hnd.1 (List.mem_map.mpr ⟨(k', b), hmem, rfl⟩)
      rw [mapLookup, if_neg hk]
      exact ih hnd.2 hmem

lemma mapErase_sublist (m : BlobMap) (k : Coord) : (mapErase m k).Sublist m := by
  induction m with
  | nil => simp [mapErase]
  | cons e rest ih =>
    obtain ⟨k', b⟩ := e
    by_cases h : k' = k
    · rw [mapErase, if_pos h]
      exact List.sublist_cons_self _ _
    · rw [mapErase, if_neg h]
      exact List.Sublist.cons₂ _ ih

lemma mapErase_keys_nodup {m : BlobMap} (k : Coord)
    (hnd : (m.map (fun e => e.1)).Nodup) :
    ((mapErase m k).map (fun e => e.1)).Nodup :=
  ((mapErase_sublist m k).map _).nodup hnd

lemma mapErase_lookup_self {m : BlobMap} (k : Coord)
    (hnd : (m.map (fun e => e.1)).Nodup) :
    mapLookup (mapErase m k) k = none := by
  induction m with
  | nil => simp [mapErase, mapLookup]
  | cons e rest ih =>
    obtain ⟨k', b⟩ := e
    rw [List.map_cons, List.nodup_cons] at hnd
    by_cases h : k' = k
    · subst h
      rw [mapErase, if_pos rfl, mapLookup_eq_none_iff]
      exact fun hk => hnd.1 hk
    · rw [mapErase, if_neg h, mapLookup, if_neg h]
      exact ih hnd.2

lemma mapErase_lookup_other {m : BlobMap} {k k' : Coord} (h : k' ≠ k) :
    mapLookup (mapErase m k) k' = mapLookup m k' := by
  induction m with
  | nil => simp [mapErase]
  | cons e rest ih =>
    obtain ⟨k'', b⟩ := e
    by_cases hk : k'' = k
    · rw [hk, mapErase, if_pos rfl, mapLookup, if_neg (fun hc => h hc.symm)]
    · rw [mapErase, if_neg hk]
      by_cases hk' : k'' = k'
      · rw [mapLookup, if_pos hk', mapLookup, if_pos hk']
      · rw [mapLookup, if_neg hk', mapLookup, if_neg hk']
        exact ih

lemma mapLookup_none_of_sublist {m m' : BlobMap} {k : Coord}
    (hsub : m'.Sublist m) (h : mapLookup m k = none) :
    mapLookup m' k = none := by
  rw [mapLookup_eq_none_iff] at h ⊢
  exact fun hk => h ((hsub.map _).subset hk)

lemma mapInsert_lookup_self (m : BlobMap) (k : Coord) (b : Blob) :
    mapLookup (mapInsert m k b) k = some b := by
  induction m with
  | nil => simp [mapInsert, mapLookup]
  | cons e rest ih =>
    obtain ⟨k', b'⟩ := e
    by_cases h : k' = k
    · rw [mapInsert, if_pos h, mapLookup, if_pos rfl]
    · rw [mapInsert, if_neg h, mapLookup, if_neg h]
      exact ih

lemma mapInsert_lookup_other {m : BlobMap} {k k' : Coord} (b : Blob) (h : k' ≠ k) :
    mapLookup (mapInsert m k b) k' = mapLookup m k' := by
  induction m with
  | nil =>
    show (if k = k' then some b else mapLookup [] k') = mapLookup [] k'
    rw [if_neg (fun hc : k = k' => h hc.symm)]
  | cons e rest ih =>
    obtain ⟨k'', b'⟩ := e
    by_cases hk : k'' = k
    · subst hk
      rw [mapInsert, if_pos rfl, mapLookup, if_neg (fun hc : k'' = k' => h hc.symm),
        mapLookup, if_neg (fun hc : k'' = k' => h hc.symm)]
    · rw [mapInsert, if_neg hk]
      by_cases hk' : k'' = k'
      · rw [mapLookup, if_pos hk', mapLookup, if_pos hk']
      · rw [mapLookup, if_neg hk', mapLookup, if_neg hk']
        exact ih

lemma mapInsert_of_absent {m : BlobMap} {k : Coord} (b : Blob)
    (h : mapLookup m k = none) : mapInsert m k b = m ++ [(k, b)] := by
  induction m with
  | nil => simp [mapInsert]
  | cons e rest ih =>
    obtain ⟨k', b'⟩ := e
    by_cases hk : k' = k
    · subst hk
      rw [mapLookup, if_pos rfl] at h
      exact absurd h (by simp)
    · rw [mapLookup, if_neg hk] at h
      rw [mapInsert, if_neg hk, List.cons_append, ih h]

lemma mapInsert_keys_of_present {m : BlobMap} {k : Coord} (b : Blob)
    (h : mapLookup m k ≠ none) :
    (mapInsert m k b).map (fun e => e.1) = m.map (fun e => e.1) := by
  induction m with
  | nil => simp [mapLookup] at h
  | cons e rest ih =>
    obtain ⟨k', b'⟩ := e
    by_cases hk : k' = k
    · subst hk
      rw [mapInsert, if_pos rfl, List.map_cons, List.map_cons]
    · rw [mapLookup, if_neg hk] at h
      rw [mapInsert, if_neg hk, List.map_cons, List.map_cons, ih h]

lemma mapInsert_keys_nodup {m : BlobMap} (k : Coord) (b : Blob)
    (hnd : (m.map (fun e => e.1)).Nodup) :
    ((mapInsert m k b).map (fun e => e.1)).Nodup := by
  by_cases h : mapLookup m k = none
  · rw [mapInsert_of_absent b h, List.map_append]
    rw [List.nodup_append]
    refine ⟨hnd, by simp, ?_⟩
    intro a ha hmem
    simp only [List.map_cons, List.map_nil, List.mem_singleton] at hmem
    rw [hmem] at ha
    exact (mapLookup_eq_none_iff m k).mp h ha
  · rw [mapInsert_keys_of_present b h]
    exact hnd

/-! ### Fold lemmas for the bookkeeping update -/

lemma removeBlob_foldl_blobs (bs : List Blob) :
    ∀ s : VisState, (bs.foldl removeBlob s).blobs =
      s.blobs.filter (fun b' => decide (b' ∉ bs)) := by
  induction bs with
  | nil =>
    intro s
    simp
  | cons b bs ih =>
    intro s
    rw [List.foldl_cons, ih]
    show (s.blobs.filter (fun b' => b' ≠ b)).filter (fun b' => decide (b' ∉ bs)) = _
    rw [List.filter_filter]
    apply List.filter_congr
    intro a _
    by_cases h1 : a = b <;> by_cases h2 : a ∈ bs <;> simp [h1, h2]

lemma removeBlob_foldl_keys_nodup (bs : List Blob) :
    ∀ s : VisState, (s.blobsMap.map (fun e => e.1)).Nodup →
      (((bs.foldl removeBlob s).blobsMap).map (fun e => e.1)).Nodup := by
  induction bs with
  | nil => intro s h; simpa using h
  | cons b bs ih =>
    intro s h
    rw [List.foldl_cons]
    exact ih _ (mapErase_keys_nodup _ h)

lemma removeBlob_foldl_lookup_none (bs : List Blob) :
    ∀ (s : VisState) (k : Coord), mapLookup s.blobsMap k = none →
      mapLookup ((bs.foldl removeBlob s)).blobsMap k = none := by
  induction bs with
  | nil => intro s k h; simpa using h
  | cons b bs ih =>
    intro s k h
    rw [List.foldl_cons]
    exact ih _ k (mapLookup_none_of_sublist (mapErase_sublist _ _) h)

lemma removeBlob_foldl_lookup_other (bs : List Blob) :
    ∀ (s : VisState) (k : Coord), (∀ b ∈ bs, k ≠ (b.x, b.y)) →
      mapLookup ((bs.foldl removeBlob s)).blobsMap k = mapLookup s.blobsMap k := by
  induction bs with
  | nil => intro s k _; rfl
  | cons b bs ih =>
    intro s k h
    rw [List.foldl_cons, ih _ k (fun b' hb' => h b' (List.mem_cons_of_mem b hb'))]
    exact mapErase_lookup_other (h b (List.mem_cons_self b bs))

lemma removeBlob_foldl_lookup_dying (bs : List Blob) :
    ∀ (s : VisState), (s.blobsMap.map (fun e => e.1)).Nodup →
      ∀ b ∈ bs, mapLookup ((bs.foldl removeBlob s)).blobsMap (b.x, b.y) = none := by
  induction bs with
  | nil => intro s _ b hb; simp at hb
  | cons b0 bs ih =>
    intro s hnd b hb
    rw [List.foldl_cons]
    by_cases hk : (b.x, b.y) = (b0.x, b0.y)
    · rw [hk]
      exact removeBlob_foldl_lookup_none bs _ _ (mapErase_lookup_self _ hnd)
    · rcases List.mem_cons.mp hb with rfl | hb'
      · exact absurd rfl hk
      · exact ih _ (mapErase_keys_nodup _ hnd) b hb'

lemma addBlob_foldl_blobs (bs : List Blob) :
    ∀ s : VisState, (bs.foldl addBlob s).blobs = s.blobs ++ bs := by
  induction bs with
  | nil => intro s; simp
  | cons b bs ih =>
    intro s
    rw [List.foldl_cons, ih]
    show (s.blobs ++ [b]) ++ bs = s.blobs ++ (b :: bs)
    rw [List.append_assoc]
    rfl

lemma addBlob_foldl_lookup_other (bs : List Blob) :
    ∀ (s : VisState) (k : Coord), (∀ b ∈ bs, k ≠ (b.x, b.y)) →
      mapLookup ((bs.foldl addBlob s)).blobsMap k = mapLookup s.blobsMap k := by
  induction bs with
  | nil => intro s k _; rfl
  | cons b bs ih =>
    intro s k h
    rw [List.foldl_cons, ih _ k (fun b' hb' => h b' (List.mem_cons_of_mem b hb'))]
    exact mapInsert_lookup_other b (h b (List.mem_cons_self b bs))

lemma addBlob_foldl_lookup_self (bs : List Blob) :
    ∀ s : VisState, (bs.map (fun b => ((b.x : Nat), (b.y : Nat)))).Nodup →
      ∀ b ∈ bs, mapLookup ((bs.foldl addBlob s)).blobsMap (b.x, b.y) = some b := by
  induction bs with
  | nil => intro s _ b hb; simp at hb
  | cons b0 bs ih =>
    intro s hnd b hb
    rw [List.map_cons, List.nodup_cons] at hnd
    rcases List.mem_cons.mp hb with rfl | hb'
    · rw [List.foldl_cons]
      rw [addBlob_foldl_lookup_other bs _ _ (fun b' hb' hk =>
        hnd.1 (List.mem_map.mpr ⟨b', hb', hk.symm⟩))]
      exact mapInsert_lookup_self _ _ _
    · rw [List.foldl_cons]
      exact ih _ hnd.2 b hb'

lemma addBlob_foldl_map_append (bs : List Blob) :
    ∀ s : VisState, (∀ b ∈ bs, mapLookup s.blobsMap (b.x, b.y) = none) →
      (bs.map (fun b => ((b.x : Nat), (b.y : Nat)))).Nodup →
      (bs.foldl addBlob s).blobsMap =
        s.blobsMap ++ bs.map (fun b => (((b.x : Nat), (b.y : Nat)), b)) := by
  induction bs with
  | nil => intro s _ _; simp
  | cons b0 bs ih =>
    intro s habs hnd
    rw [List.map_cons, List.nodup_cons] at hnd
    rw [List.foldl_cons, ih _ ?_ hnd.2]
    · show (addBlob s b0).blobsMap ++ _ = _
      have : (addBlob s b0).blobsMap = s.blobsMap ++ [((b0.x, b0.y), b0)] :=
        mapInsert_of_absent b0 (habs b0 (List.mem_cons_self b0 bs))
      rw [this, List.append_assoc]
      rfl
    · intro b hb
      show mapLookup (mapInsert s.blobsMap (b0.x, b0.y) b0) (b.x, b.y) = none
      have hne : ((b.x : Nat), (b.y : Nat)) ≠ (b0.x, b0.y) := by
        intro hk
        exact hnd.1 (List.mem_map.mpr ⟨b, hb, hk⟩)
      rw [mapInsert_lookup_other b0 hne]
      exact habs b (List.mem_cons_of_mem b0 hb)

/-- C5 counterexample.  With a pending transition in flight but the animation
not yet started (state Preparing, not Idle), a second `prepare` is accepted —
it returns `true`, not the busy signal — and overwrites `pendingChanges`:
after preparing the step `[[0]] → [[1]]`, preparing `[[0]] → [[0]]` replaces
the recorded appearing cell with an empty change set. -/
theorem prepareNextGeneration_overwrite_counterexample :
    ((prepareNextGeneration 1
        (prepareNextGeneration 1 ⟨[], [], [], none, false⟩ [[0]] [[1]]).2
        [[0]] [[0]]).1 = true) ∧
    (prepareNextGeneration 1
        (prepareNextGeneration 1 ⟨[], [], [], none, false⟩ [[0]] [[1]]).2
        [[0]] [[0]]).2.pendingChanges ≠
      (prepareNextGeneration 1 ⟨[], [], [], none, false⟩ [[0]] [[1]]).2.pendingChanges := by
  decide

/-- C5 (amended).  The busy rejection guards the animation phase only: while
`isAnimating` is set, `prepareNextGeneration` returns the busy signal `false`
and leaves the entire state — the in-flight `pendingChanges` included —
unmodified.  (Before `beginAnimation` the flag is still false and a second
`prepare` is accepted and overwrites the pending transition, as the
counterexample shows.) -/
theorem prepareNextGeneration_busy (N : Nat) (s : VisState) (cur next : Grid)
    (h : s.isAnimating = true) :
    prepareNextGeneration N s cur next = (false, s) := by
  simp [prepareNextGeneration, h]

/-- Witness for C5's amended statement. -/
theorem prepareNextGeneration_busy_witness :
    prepareNextGeneration 1 ⟨[], [], [], none, true⟩ [[0]] [[1]] =
      (false, ⟨[], [], [], none, true⟩) :=
  prepareNextGeneration_busy 1 ⟨[], [], [], none, true⟩ [[0]] [[1]] rfl

/-- C4.  In a generation transition, every disappearing blob is removed from
both bookkeeping structures (`blobs` array and `blobsMap`) and every
appearing blob is added to both, before `identifyOrganismGroups` recomputes
the organisms — the regroup step reads exactly the post-update collections —
and no appearing blob is visible until the grow phase, which runs only after
the recomputation.  The hypotheses on `ch` hold of every change record
`prepareNextGeneration` produces: placeholders are created invisible at
distinct dead cells, disappearing blobs sit at other cells, and the map keys
are unique. -/
theorem animateNextGeneration_order (N : Nat) (s : VisState) (ch : Changes)
    (hpend : s.pendingChanges = some ch)
    (hanim : s.isAnimating = false)
    (hkeys : (s.blobsMap.map (fun e => e.1)).Nodup)
    (hinv : ∀ b ∈ ch.newBlobs, b.visible = false)
    (hnodup : (ch.newBlobs.map (fun b => ((b.x : Nat), (b.y : Nat)))).Nodup)
    (hdisj : ∀ b ∈ ch.newBlobs, ∀ b' ∈ ch.blobsToRemove,
      ((b.x : Nat), (b.y : Nat)) ≠ (b'.x, b'.y)) :
    animateNextGeneration N s =
      (true,
       finishTransition (growStart (regroup N
         (bookkeepingUpdate { s with isAnimating := true } ch)) ch),
       [PhaseEvent.shrink ch.blobsToRemove.length, PhaseEvent.regroup,
        PhaseEvent.grow ch.newBlobs.length]) ∧
    (∀ b ∈ ch.blobsToRemove,
       b ∉ (bookkeepingUpdate { s with isAnimating := true } ch).blobs ∧
       mapLookup (bookkeepingUpdate { s with isAnimating := true } ch).blobsMap
         (b.x, b.y) = none) ∧
    (∀ b ∈ ch.newBlobs,
       b ∈ (bookkeepingUpdate { s with isAnimating := true } ch).blobs ∧
       mapLookup (bookkeepingUpdate { s with isAnimating := true } ch).blobsMap
         (b.x, b.y) = some b) ∧
    ((regroup N (bookkeepingUpdate { s with isAnimating := true } ch)).blobs =
       (bookkeepingUpdate { s with isAnimating := true } ch).blobs ∧
     (regroup N (bookkeepingUpdate { s with isAnimating := true } ch)).blobsMap =
       (bookkeepingUpdate { s with isAnimating := true } ch).blobsMap) ∧
    (∀ b ∈ ch.newBlobs,
       b ∈ (regroup N (bookkeepingUpdate { s with isAnimating := true } ch)).blobs ∧
       b.visible = false) ∧
    (∀ b ∈ ch.newBlobs,
       { b with visible := true } ∈
         (growStart (regroup N (bookkeepingUpdate { s with isAnimating := true } ch))
           ch).blobs) := by
  have hrun : animateNextGeneration N s =
      (true,
       finishTransition (growStart (regroup N
         (bookkeepingUpdate { s with isAnimating := true } ch)) ch),
       [PhaseEvent.shrink ch.blobsToRemove.length, PhaseEvent.regroup,
        PhaseEvent.grow ch.newBlobs.length]) := by
    rw [animateNextGeneration, hpend]
    rw [hanim]
    rfl
  have hbk_blobs : (bookkeepingUpdate { s with isAnimating := true } ch).blobs =
      (s.blobs.filter (fun b' => decide (b' ∉ ch.blobsToRemove))) ++ ch.newBlobs := by
    rw [bookkeepingUpdate, addBlob_foldl_blobs, removeBlob_foldl_blobs]
  have hdying : ∀ b ∈ ch.blobsToRemove,
      b ∉ (bookkeepingUpdate { s with isAnimating := true } ch).blobs ∧
      mapLookup (bookkeepingUpdate { s with isAnimating := true } ch).blobsMap
        (b.x, b.y) = none := by
    intro b hb
    constructor
    · rw [hbk_blobs]
      intro hmem
      rcases List.mem_append.mp hmem with h | h
      · have := (List.mem_filter.mp h).2
        simp only [decide_eq_true_eq] at this
        exact this hb
      · exact hdisj b h b hb (by rfl)
    · rw [bookkeepingUpdate]
      rw [addBlob_foldl_lookup_other _ _ _
        (fun b' hb' hk => hdisj b' hb' b hb hk.symm)]
      exact removeBlob_foldl_lookup_dying _ { s with isAnimating := true } hkeys b hb
  have hnew : ∀ b ∈ ch.newBlobs,
      b ∈ (bookkeepingUpdate { s with isAnimating := true } ch).blobs ∧
      mapLookup (bookkeepingUpdate { s with isAnimating := true } ch).blobsMap
        (b.x, b.y) = some b := by
    intro b hb
    constructor
    · rw [hbk_blobs]
      exact List.mem_append.mpr (Or.inr hb)
    · rw [bookkeepingUpdate]
      exact addBlob_foldl_lookup_self _ _ hnodup b hb
  refine ⟨hrun, hdying, hnew, ⟨rfl, rfl⟩, ?_, ?_⟩
  · intro b hb
    exact ⟨(hnew b hb).1, hinv b hb⟩
  · intro b hb
    have hmem : b ∈ (regroup N
        (bookkeepingUpdate { s with isAnimating := true } ch)).blobs :=
      (hnew b hb).1
    simp only [growStart]
    exact List.mem_map.mpr ⟨b, hmem, by rw [if_pos hb]⟩

/-- Witness for C4: after the bookkeeping update of a concrete transition the
dying blob's key is gone from the map. -/
theorem animateNextGeneration_order_witness :
    mapLookup (bookkeepingUpdate
      ⟨[⟨0, 0, true⟩], [((0, 0), ⟨0, 0, true⟩)], [],
        some ⟨[(1, 1)], [(0, 0)], [], [⟨1, 1, false⟩], [⟨0, 0, true⟩]⟩, true⟩
      ⟨[(1, 1)], [(0, 0)], [], [⟨1, 1, false⟩], [⟨0, 0, true⟩]⟩).blobsMap
      (0, 0) = none :=
  ((animateNextGeneration_order 2
      ⟨[⟨0, 0, true⟩], [((0, 0), ⟨0, 0, true⟩)], [],
        some ⟨[(1, 1)], [(0, 0)], [], [⟨1, 1, false⟩], [⟨0, 0, true⟩]⟩, false⟩
      ⟨[(1, 1)], [(0, 0)], [], [⟨1, 1, false⟩], [⟨0, 0, true⟩]⟩
      rfl rfl (by decide) (by decide) (by decide) (by decide)).2.1
    ⟨0, 0, true⟩ (by decide)).2

lemma classifyCell_identical (m : BlobMap) (g : Grid) (ch : Changes) (c : Coord) :
    (classifyCell m g g ch c).appearingCells = ch.appearingCells ∧
    (classifyCell m g g ch c).disappearingCells = ch.disappearingCells ∧
    (classifyCell m g g ch c).newBlobs = ch.newBlobs ∧
    (classifyCell m g g ch c).blobsToRemove = ch.blobsToRemove := by
  unfold classifyCell
  by_cases h1 : cell? g c.1 c.2 = some 0 ∧ cell? g c.1 c.2 = some 1
  · exact absurd (h1.1.symm.trans h1.2) (by simp)
  rw [if_neg h1]
  by_cases h2 : cell? g c.1 c.2 = some 1 ∧ cell? g c.1 c.2 = some 0
  · exact absurd (h2.1.symm.trans h2.2) (by simp)
  rw [if_neg h2]
  by_cases h3 : cell? g c.1 c.2 = some 1 ∧ cell? g c.1 c.2 = some 1
  · rw [if_pos h3]
    exact ⟨rfl, rfl, rfl, rfl⟩
  · rw [if_neg h3]
    exact ⟨rfl, rfl, rfl, rfl⟩

lemma computeChanges_identical (N : Nat) (m : BlobMap) (g : Grid) :
    (computeChanges N m g g).appearingCells = [] ∧
    (computeChanges N m g g).disappearingCells = [] ∧
    (computeChanges N m g g).newBlobs = [] ∧
    (computeChanges N m g g).blobsToRemove = [] := by
  have main : ∀ (cs : List Coord) (ch : Changes),
      (cs.foldl (classifyCell m g g) ch).appearingCells = ch.appearingCells ∧
      (cs.foldl (classifyCell m g g) ch).disappearingCells = ch.disappearingCells ∧
      (cs.foldl (classifyCell m g g) ch).newBlobs = ch.newBlobs ∧
      (cs.foldl (classifyCell m g g) ch).blobsToRemove = ch.blobsToRemove := by
    intro cs
    induction cs with
    | nil => intro ch; exact ⟨rfl, rfl, rfl, rfl⟩
    | cons c cs ih =>
      intro ch
      obtain ⟨i1, i2, i3, i4⟩ := ih (classifyCell m g g ch c)
      obtain ⟨j1, j2, j3, j4⟩ := classifyCell_identical m g ch c
      rw [List.foldl_cons]
      exact ⟨i1.trans j1, i2.trans j2, i3.trans j3, i4.trans j4⟩
  exact main (cellPairs N) ⟨[], [], [], [], []⟩

lemma bookkeepingUpdate_empty (s : VisState) (ch : Changes)
    (h1 : ch.newBlobs = []) (h2 : ch.blobsToRemove = []) :
    bookkeepingUpdate s ch = s := by
  rw [bookkeepingUpdate, h1, h2]
  rfl

lemma regroup_self {N : Nat} {s : VisState}
    (h : s.organismGroups =
      identifyOrganismGroups N (blobCoords s) (mapKeys s.blobsMap)) :
    regroup N s = s := by
  rw [regroup, ← h]

lemma growStart_empty (s : VisState) (ch : Changes) (h : ch.newBlobs = []) :
    growStart s ch = s := by
  simp [growStart, h]

/-- C6 counterexample.  With `nextGrid` identical to `currentGrid` (a single
stable live cell), the live-cell set does not change — the classification has
no appearing and no disappearing cells — yet the transition still performs
the Regroup step: `identifyOrganismGroups` runs unconditionally, as the
`regroup` event in the trace shows.  The claim's "Regroup is performed iff
the live-cell set changed" therefore fails. -/
theorem regroup_always_runs_counterexample :
    (computeChanges 1 (createBlobs 1 [[1]] ⟨[], [], [], none, false⟩).blobsMap
        [[1]] [[1]]).appearingCells = [] ∧
    (computeChanges 1 (createBlobs 1 [[1]] ⟨[], [], [], none, false⟩).blobsMap
        [[1]] [[1]]).disappearingCells = [] ∧
    PhaseEvent.regroup ∈
      (animateNextGeneration 1 (prepareNextGeneration 1
        (createBlobs 1 [[1]] ⟨[], [], [], none, false⟩) [[1]] [[1]]).2).2.2 := by
  decide

/-- C6 (amended).  If `nextGrid` is identical to `currentGrid`, `prepare`
followed by `beginAnimation` is accepted, runs with zero shrink joins and
zero grow joins, leaves every piece of state — organism membership included —
unchanged, and returns to Idle: the final state is exactly the initial one.
The Regroup step, however, is always performed (the recomputation runs even
though the live-cell set did not change; it reproduces the same organisms),
rather than being skipped as the claim's "if and only if" requires. -/
theorem transition_noop (N : Nat) (s : VisState) (g : Grid)
    (hA : s.isAnimating = false) (hP : s.pendingChanges = none)
    (hQ : s.organismGroups =
      identifyOrganismGroups N (blobCoords s) (mapKeys s.blobsMap)) :
    (prepareNextGeneration N s g g).1 = true ∧
    animateNextGeneration N (prepareNextGeneration N s g g).2 =
      (true, s, [PhaseEvent.shrink 0, PhaseEvent.regroup, PhaseEvent.grow 0]) := by
  obtain ⟨hap, hdis, hnew, hrem⟩ := computeChanges_identical N s.blobsMap g
  obtain ⟨bl, bm, og, pc, ia⟩ := s
  dsimp only at hA hP hQ hnew hrem
  subst hA
  subst hP
  refine ⟨rfl, ?_⟩
  show (true,
      finishTransition (growStart (regroup N (bookkeepingUpdate
        ⟨bl, bm, og, some (computeChanges N bm g g), true⟩
        (computeChanges N bm g g))) (computeChanges N bm g g)),
      [PhaseEvent.shrink (computeChanges N bm g g).blobsToRemove.length,
       PhaseEvent.regroup,
       PhaseEvent.grow (computeChanges N bm g g).newBlobs.length]) =
    (true, ⟨bl, bm, og, none, false⟩,
      [PhaseEvent.shrink 0, PhaseEvent.regroup, PhaseEvent.grow 0])
  rw [bookkeepingUpdate_empty _ _ hnew hrem]
  rw [regroup_self (by exact hQ)]
  rw [growStart_empty _ _ hnew]
  rw [hnew, hrem]
  rfl

/-- Witness for C6's amended statement: a stable 1×1 grid round-trips the
visualizer state through prepare and animate unchanged. -/
theorem transition_noop_witness :
    (prepareNextGeneration 1 (createBlobs 1 [[1]] ⟨[], [], [], none, false⟩)
        [[1]] [[1]]).1 = true ∧
    animateNextGeneration 1 (prepareNextGeneration 1
        (createBlobs 1 [[1]] ⟨[], [], [], none, false⟩) [[1]] [[1]]).2 =
      (true, createBlobs 1 [[1]] ⟨[], [], [], none, false⟩,
       [PhaseEvent.shrink 0, PhaseEvent.regroup, PhaseEvent.grow 0]) :=
  transition_noop 1 (createBlobs 1 [[1]] ⟨[], [], [], none, false⟩) [[1]]
    (by decide) (by decide) (by decide)

/-! ### The C10 agreement invariant -/

/-- C10's invariant, in the claim's form: a blob is an element of the `blobs`
array iff `blobsMap` maps the key of that blob's coordinates to that same
blob; additionally every map binding is keyed by its value's coordinates and
its value is in the array, so the two structures describe exactly the same
live-cell set. -/
def Agree (s : VisState) : Prop :=
  (∀ b : Blob, b ∈ s.blobs ↔ mapLookup s.blobsMap (b.x, b.y) = some b) ∧
  (∀ e ∈ s.blobsMap, e.1 = (e.2.x, e.2.y) ∧ e.2 ∈ s.blobs)

/-- The finitary reformulation of `Agree`, decidable on concrete states. -/
def AgreeChecks (s : VisState) : Prop :=
  (∀ b ∈ s.blobs, mapLookup s.blobsMap (b.x, b.y) = some b) ∧
  (∀ e ∈ s.blobsMap, e.1 = (e.2.x, e.2.y) ∧ e.2 ∈ s.blobs)

instance : DecidablePred AgreeChecks := fun s => by
  unfold AgreeChecks; infer_instance

lemma agree_iff_checks (s : VisState) : Agree s ↔ AgreeChecks s := by
  constructor
  · rintro ⟨h1, h2⟩
    exact ⟨fun b hb => (h1 b).mp hb, h2⟩
  · rintro ⟨h1, h2⟩
    refine ⟨fun b => ⟨h1 b, ?_⟩, h2⟩
    intro hb
    exact (h2 _ (mapLookup_mem hb)).2

lemma cellPairs_nodup (N : Nat) : (cellPairs N).Nodup := by
  rw [cellPairs, List.nodup_flatMap]
  constructor
  · intro y _
    exact List.Nodup.map
      (fun a b h => congrArg Prod.fst h) (List.nodup_range N)
  · refine (List.pairwise_lt_range N).imp ?_
    intro y y' h p hp hp'
    rcases List.mem_map.mp hp with ⟨x, _, rfl⟩
    rcases List.mem_map.mp hp' with ⟨x', _, hxy⟩
    injection hxy with h1 h2
    omega

lemma classify_foldl_toRemove (m : BlobMap) (cur next : Grid) (cs : List Coord) :
    ∀ (ch : Changes) (b : Blob),
      b ∈ (cs.foldl (classifyCell m cur next) ch).blobsToRemove →
      b ∈ ch.blobsToRemove ∨ ∃ c, mapLookup m c = some b := by
  induction cs with
  | nil => intro ch b hb; exact Or.inl hb
  | cons c cs ih =>
    intro ch b hb
    rw [List.foldl_cons] at hb
    rcases ih _ b hb with hmem | hex
    · unfold classifyCell at hmem
      by_cases h1 : cell? cur c.1 c.2 = some 0 ∧ cell? next c.1 c.2 = some 1
      · rw [if_pos h1] at hmem
        exact Or.inl hmem
      rw [if_neg h1] at hmem
      by_cases h2 : cell? cur c.1 c.2 = some 1 ∧ cell? next c.1 c.2 = some 0
      · rw [if_pos h2] at hmem
        simp only [List.mem_append] at hmem
        rcases hmem with hmem | hmem
        · exact Or.inl hmem
        · refine Or.inr ⟨c, ?_⟩
          cases hc : mapLookup m c with
          | none => rw [hc] at hmem; simp [Option.toList] at hmem
          | some b' =>
            rw [hc] at hmem
            simp only [Option.toList, List.mem_singleton] at hmem
            rw [hmem]
      rw [if_neg h2] at hmem
      by_cases h3 : cell? cur c.1 c.2 = some 1 ∧ cell? next c.1 c.2 = some 1
      · rw [if_pos h3] at hmem
        exact Or.inl hmem
      · rw [if_neg h3] at hmem
        exact Or.inl hmem
    · exact Or.inr hex

lemma classify_foldl_newBlobs (m : BlobMap) (cur next : Grid) (cs : List Coord) :
    ∀ ch : Changes,
      (cs.foldl (classifyCell m cur next) ch).newBlobs =
        ch.newBlobs ++ (cs.filter (fun c =>
          decide (cell? cur c.1 c.2 = some 0 ∧ cell? next c.1 c.2 = some 1))).map
          (fun c => (⟨c.1, c.2, false⟩ : Blob)) := by
  induction cs with
  | nil => intro ch; simp
  | cons c cs ih =>
    intro ch
    rw [List.foldl_cons, ih]
    by_cases h1 : cell? cur c.1 c.2 = some 0 ∧ cell? next c.1 c.2 = some 1
    · have hcl : (classifyCell m cur next ch c).newBlobs =
          ch.newBlobs ++ [⟨c.1, c.2, false⟩] := by
        unfold classifyCell
        rw [if_pos h1]
      rw [hcl, List.filter_cons_of_pos (by simpa using h1), List.map_cons,
        List.append_assoc]
      rfl
    · have hcl : (classifyCell m cur next ch c).newBlobs = ch.newBlobs := by
        unfold classifyCell
        rw [if_neg h1]
        by_cases h2 : cell? cur c.1 c.2 = some 1 ∧ cell? next c.1 c.2 = some 0
        · rw [if_pos h2]
        rw [if_neg h2]
        by_cases h3 : cell? cur c.1 c.2 = some 1 ∧ cell? next c.1 c.2 = some 1
        · rw [if_pos h3]
        · rw [if_neg h3]
      rw [hcl, List.filter_cons_of_neg (by simpa using h1)]

lemma computeChanges_toRemove_lookup (N : Nat) (m : BlobMap) (cur next : Grid) :
    ∀ b ∈ (computeChanges N m cur next).blobsToRemove, ∃ c, mapLookup m c = some b := by
  intro b hb
  rcases classify_foldl_toRemove m cur next (cellPairs N) ⟨[], [], [], [], []⟩ b hb with
    h | h
  · simp at h
  · exact h

lemma computeChanges_newBlobs (N : Nat) (m : BlobMap) (cur next : Grid) :
    (computeChanges N m cur next).newBlobs =
      ((cellPairs N).filter (fun c =>
        decide (cell? cur c.1 c.2 = some 0 ∧ cell? next c.1 c.2 = some 1))).map
        (fun c => (⟨c.1, c.2, false⟩ : Blob)) := by
  have := classify_foldl_newBlobs m cur next (cellPairs N) ⟨[], [], [], [], []⟩
  simpa using this

lemma computeChanges_newBlobs_coords_nodup (N : Nat) (m : BlobMap) (cur next : Grid) :
    ((computeChanges N m cur next).newBlobs.map
      (fun b => ((b.x : Nat), (b.y : Nat)))).Nodup := by
  rw [computeChanges_newBlobs, List.map_map]
  have heq : ((fun b => ((b.x : Nat), (b.y : Nat))) ∘
      (fun c : Coord => (⟨c.1, c.2, false⟩ : Blob))) = (id : Coord → Coord) := by
    funext c
    rfl
  rw [heq, List.map_id]
  exact ((cellPairs_nodup N).filter _)

lemma computeChanges_newBlobs_mem (N : Nat) (m : BlobMap) (cur next : Grid) :
    ∀ b ∈ (computeChanges N m cur next).newBlobs,
      b.visible = false ∧ ((b.x : Nat), (b.y : Nat)) ∈ cellPairs N ∧
        cell? cur b.x b.y = some 0 := by
  intro b hb
  rw [computeChanges_newBlobs] at hb
  rcases List.mem_map.mp hb with ⟨c, hc, rfl⟩
  have := List.mem_filter.mp hc
  simp only [decide_eq_true_eq] at this
  exact ⟨rfl, this.1, this.2.1⟩

lemma removeBlob_foldl_map_sublist (bs : List Blob) :
    ∀ s : VisState, ((bs.foldl removeBlob s).blobsMap).Sublist s.blobsMap := by
  induction bs with
  | nil => intro s; exact List.Sublist.refl _
  | cons b bs ih =>
    intro s
    exact (ih (removeBlob s b)).trans (mapErase_sublist _ _)

/-- The per-blob mutation of the grow phase, as a value function. -/
def growFn (ch : Changes) (b : Blob) : Blob :=
  if b ∈ ch.newBlobs then { b with visible := true } else b

lemma growFn_coords (ch : Changes) (b : Blob) :
    (growFn ch b).x = b.x ∧ (growFn ch b).y = b.y := by
  unfold growFn
  split <;> exact ⟨rfl, rfl⟩

lemma growStart_eq (s : VisState) (ch : Changes) :
    growStart s ch =
      { s with blobs := s.blobs.map (growFn ch),
               blobsMap := s.blobsMap.map (fun e => (e.1, growFn ch e.2)) } := by
  rw [growStart]
  have hmap : (fun (e : Coord × Blob) =>
      if e.2 ∈ ch.newBlobs then (e.1, { e.2 with visible := true }) else e) =
      fun e => (e.1, growFn ch e.2) := by
    funext e
    unfold growFn
    by_cases h : e.2 ∈ ch.newBlobs
    · rw [if_pos h, if_pos h]
    · rw [if_neg h, if_neg h]
  have hblobs : (fun b => if b ∈ ch.newBlobs then { b with visible := true } else b) =
      growFn ch := by
    funext b
    rfl
  rw [hmap, hblobs]

lemma mapValues_lookup (f : Blob → Blob) (m : BlobMap) (k : Coord) :
    mapLookup (m.map (fun e => (e.1, f e.2))) k = (mapLookup m k).map f := by
  induction m with
  | nil => rfl
  | cons e rest ih =>
    obtain ⟨k', b⟩ := e
    rw [List.map_cons]
    by_cases h : k' = k
    · rw [mapLookup, mapLookup, if_pos h, if_pos h]
      rfl
    · rw [mapLookup, mapLookup, if_neg h, if_neg h]
      exact ih

lemma agreeChecks_map_values (f : Blob → Blob)
    (hf : ∀ b, (f b).x = b.x ∧ (f b).y = b.y) (s : VisState)
    (h : AgreeChecks s) :
    AgreeChecks { s with blobs := s.blobs.map f,
                         blobsMap := s.blobsMap.map (fun e => (e.1, f e.2)) } := by
  obtain ⟨h1, h2⟩ := h
  constructor
  · intro b hb
    rcases List.mem_map.mp hb with ⟨a, ha, rfl⟩
    show mapLookup (s.blobsMap.map _) ((f a).x, (f a).y) = some (f a)
    rw [(hf a).1, (hf a).2, mapValues_lookup, h1 a ha]
    rfl
  · intro e he
    rcases List.mem_map.mp he with ⟨e', he', rfl⟩
    obtain ⟨hk, hv⟩ := h2 e' he'
    refine ⟨?_, List.mem_map.mpr ⟨e'.2, hv, rfl⟩⟩
    show e'.1 = ((f e'.2).x, (f e'.2).y)
    rw [(hf e'.2).1, (hf e'.2).2]
    exact hk

lemma buildMap_eq (bs : List Blob) :
    ∀ m : BlobMap, (∀ b ∈ bs, mapLookup m (b.x, b.y) = none) →
      (bs.map (fun b => ((b.x : Nat), (b.y : Nat)))).Nodup →
      bs.foldl (fun m b => mapInsert m (b.x, b.y) b) m =
        m ++ bs.map (fun b => (((b.x : Nat), (b.y : Nat)), b)) := by
  induction bs with
  | nil => intro m _ _; simp
  | cons b0 bs ih =>
    intro m habs hnd
    rw [List.map_cons, List.nodup_cons] at hnd
    rw [List.foldl_cons]
    show bs.foldl (fun m b => mapInsert m (b.x, b.y) b)
      (mapInsert m (b0.x, b0.y) b0) = _
    rw [mapInsert_of_absent b0 (habs b0 (List.mem_cons_self b0 bs)), ih _ ?_ hnd.2,
      List.map_cons, List.append_assoc]
    · rfl
    · intro b hb
      rw [mapLookup_eq_none_iff, List.map_append]
      intro hmem
      rcases List.mem_append.mp hmem with h | h
      · exact (mapLookup_eq_none_iff m (b.x, b.y)).mp
          (habs b (List.mem_cons_of_mem b0 hb)) h
      · simp only [List.map_cons, List.map_nil, List.mem_singleton] at h
        exact hnd.1 (List.mem_map.mpr ⟨b, hb, h⟩)

lemma agreeChecks_createBlobs (N : Nat) (g : Grid) (s : VisState) :
    AgreeChecks (createBlobs N g s) := by
  have hcoords : ((((cellPairs N).filter
        (fun c => decide (cell? g c.1 c.2 = some 1))).map
        (fun c => Blob.mk c.1 c.2 true)).map
        (fun b => ((b.x : Nat), (b.y : Nat)))).Nodup := by
    rw [List.map_map]
    have heq : ((fun b => ((b.x : Nat), (b.y : Nat))) ∘
        (fun c : Coord => Blob.mk c.1 c.2 true)) = (id : Coord → Coord) := by
      funext c
      rfl
    rw [heq, List.map_id]
    exact (cellPairs_nodup N).filter _
  have hbuild := buildMap_eq (((cellPairs N).filter
      (fun c => decide (cell? g c.1 c.2 = some 1))).map
      (fun c => Blob.mk c.1 c.2 true)) [] (fun b _ => rfl) hcoords
  rw [List.nil_append] at hbuild
  show AgreeChecks
    { s with
        blobs := (((cellPairs N).filter
          (fun c => decide (cell? g c.1 c.2 = some 1))).map
          (fun c => Blob.mk c.1 c.2 true)),
        blobsMap := (((cellPairs N).filter
          (fun c => decide (cell? g c.1 c.2 = some 1))).map
          (fun c => Blob.mk c.1 c.2 true)).foldl
            (fun m b => mapInsert m (b.x, b.y) b) [] }
  rw [show (({ s with
        blobs := (((cellPairs N).filter
          (fun c => decide (cell? g c.1 c.2 = some 1))).map
          (fun c => Blob.mk c.1 c.2 true)),
        blobsMap := (((cellPairs N).filter
          (fun c => decide (cell? g c.1 c.2 = some 1))).map
          (fun c => Blob.mk c.1 c.2 true)).foldl
            (fun m b => mapInsert m (b.x, b.y) b) [] } : VisState)) =
      { s with
        blobs := (((cellPairs N).filter
          (fun c => decide (cell? g c.1 c.2 = some 1))).map
          (fun c => Blob.mk c.1 c.2 true)),
        blobsMap := (((cellPairs N).filter
          (fun c => decide (cell? g c.1 c.2 = some 1))).map
          (fun c => Blob.mk c.1 c.2 true)).map
            (fun b => (((b.x : Nat), (b.y : Nat)), b)) } from by rw [hbuild]]
  constructor
  · intro b hb
    have hkeysnd : (((((cellPairs N).filter
        (fun c => decide (cell? g c.1 c.2 = some 1))).map
        (fun c => Blob.mk c.1 c.2 true)).map
        (fun b => (((b.x : Nat), (b.y : Nat)), b))).map (fun e => e.1)).Nodup := by
      rw [List.map_map]
      exact hcoords
    exact mapLookup_of_mem_nodup hkeysnd (List.mem_map.mpr ⟨b, hb, rfl⟩)
  · intro e he
    rcases List.mem_map.mp he with ⟨b, hb, rfl⟩
    exact ⟨rfl, hb⟩

lemma agree_createBlobs (N : Nat) (g : Grid) (s : VisState) :
    Agree (createBlobs N g s) :=
  (agree_iff_checks _).mpr (agreeChecks_createBlobs N g s)

set_option maxHeartbeats 800000 in
lemma agreeChecks_bookkeeping (N : Nat) (t : VisState) (cur next : Grid)
    (h1 : AgreeChecks t)
    (hkeys : (t.blobsMap.map (fun e => e.1)).Nodup)
    (h2 : ∀ c ∈ cellPairs N,
      ((mapLookup t.blobsMap c).isSome = true ↔ cell? cur c.1 c.2 = some 1)) :
    AgreeChecks (bookkeepingUpdate { t with isAnimating := true }
      (computeChanges N t.blobsMap cur next)) := by
  have hdying_lookup : ∀ b ∈ (computeChanges N t.blobsMap cur next).blobsToRemove,
      mapLookup t.blobsMap (b.x, b.y) = some b := by
    intro b hb
    obtain ⟨c, hc⟩ := computeChanges_toRemove_lookup N t.blobsMap cur next b hb
    have hck := (h1.2 _ (mapLookup_mem hc)).1
    rw [← hck]
    exact hc
  have hnew_none : ∀ b ∈ (computeChanges N t.blobsMap cur next).newBlobs,
      mapLookup t.blobsMap (b.x, b.y) = none := by
    intro b hb
    obtain ⟨hvis, hcell, hcur⟩ := computeChanges_newBlobs_mem N t.blobsMap cur next b hb
    have hns : ¬ (mapLookup t.blobsMap (b.x, b.y)).isSome = true := by
      intro hs
      have hone := (h2 _ hcell).mp hs
      rw [hcur] at hone
      exact absurd hone (by simp)
    exact Option.not_isSome_iff_eq_none.mp hns
  have hnodup_new := computeChanges_newBlobs_coords_nodup N t.blobsMap cur next
  have hRblobs := removeBlob_foldl_blobs
    (computeChanges N t.blobsMap cur next).blobsToRemove { t with isAnimating := true }
  have hRchecks : AgreeChecks
      ((computeChanges N t.blobsMap cur next).blobsToRemove.foldl removeBlob
        { t with isAnimating := true }) := by
    constructor
    · intro b hb
      rw [hRblobs, List.mem_filter] at hb
      obtain ⟨hbt, hbd⟩ := hb
      simp only [decide_eq_true_eq] at hbd
      have hbk : ∀ b' ∈ (computeChanges N t.blobsMap cur next).blobsToRemove,
          ((b.x : Nat), (b.y : Nat)) ≠ (b'.x, b'.y) := by
        intro b' hb' heq
        have l1 : mapLookup t.blobsMap (b.x, b.y) = some b := h1.1 b hbt
        have l2 := hdying_lookup b' hb'
        rw [← heq, l1, Option.some.injEq] at l2
        rw [l2] at hbd
        exact hbd hb'
      rw [removeBlob_foldl_lookup_other _ _ _ hbk]
      exact h1.1 b hbt
    · intro e he
      have hesub : e ∈ t.blobsMap :=
        (removeBlob_foldl_map_sublist _ { t with isAnimating := true }).subset he
      obtain ⟨hek, hev⟩ := h1.2 e hesub
      refine ⟨hek, ?_⟩
      rw [hRblobs, List.mem_filter]
      refine ⟨hev, ?_⟩
      simp only [decide_eq_true_eq]
      intro hdy
      have hnd_sR := removeBlob_foldl_keys_nodup
        (computeChanges N t.blobsMap cur next).blobsToRemove
        { t with isAnimating := true } hkeys
      have hlook := mapLookup_of_mem_nodup hnd_sR he
      have hnone := removeBlob_foldl_lookup_dying
        (computeChanges N t.blobsMap cur next).blobsToRemove
        { t with isAnimating := true } hkeys e.2 hdy
      rw [hek] at hlook
      rw [hlook] at hnone
      exact absurd hnone (by simp)
  have hnew_none_R : ∀ b ∈ (computeChanges N t.blobsMap cur next).newBlobs,
      mapLookup ((computeChanges N t.blobsMap cur next).blobsToRemove.foldl removeBlob
        { t with isAnimating := true }).blobsMap (b.x, b.y) = none :=
    fun b hb => removeBlob_foldl_lookup_none _ _ _ (hnew_none b hb)
  have hs1blobs := addBlob_foldl_blobs (computeChanges N t.blobsMap cur next).newBlobs
    ((computeChanges N t.blobsMap cur next).blobsToRemove.foldl removeBlob
      { t with isAnimating := true })
  have hs1map := addBlob_foldl_map_append (computeChanges N t.blobsMap cur next).newBlobs
    ((computeChanges N t.blobsMap cur next).blobsToRemove.foldl removeBlob
      { t with isAnimating := true }) hnew_none_R hnodup_new
  constructor
  · intro b hb
    rw [show (bookkeepingUpdate { t with isAnimating := true }
        (computeChanges N t.blobsMap cur next)).blobs =
      ((computeChanges N t.blobsMap cur next).blobsToRemove.foldl removeBlob
        { t with isAnimating := true }).blobs ++
        (computeChanges N t.blobsMap cur next).newBlobs from hs1blobs] at hb
    show mapLookup (bookkeepingUpdate { t with isAnimating := true }
        (computeChanges N t.blobsMap cur next)).blobsMap (b.x, b.y) = some b
    rcases List.mem_append.mp hb with hbR | hbN
    · have hne : ∀ b' ∈ (computeChanges N t.blobsMap cur next).newBlobs,
          ((b.x : Nat), (b.y : Nat)) ≠ (b'.x, b'.y) := by
        intro b' hb' heq
        have l1 := hRchecks.1 b hbR
        have l2 := hnew_none_R b' hb'
        rw [← heq] at l2
        rw [l1] at l2
        exact absurd l2 (by simp)
      rw [show (bookkeepingUpdate { t with isAnimating := true }
          (computeChanges N t.blobsMap cur next)) =
        (computeChanges N t.blobsMap cur next).newBlobs.foldl addBlob
          ((computeChanges N t.blobsMap cur next).blobsToRemove.foldl removeBlob
            { t with isAnimating := true }) from rfl]
      rw [addBlob_foldl_lookup_other _ _ _ hne]
      exact hRchecks.1 b hbR
    · exact addBlob_foldl_lookup_self _ _ hnodup_new b hbN
  · intro e he
    rw [show (bookkeepingUpdate { t with isAnimating := true }
        (computeChanges N t.blobsMap cur next)).blobsMap =
      ((computeChanges N t.blobsMap cur next).blobsToRemove.foldl removeBlob
        { t with isAnimating := true }).blobsMap ++
        (computeChanges N t.blobsMap cur next).newBlobs.map
          (fun b => (((b.x : Nat), (b.y : Nat)), b)) from hs1map] at he
    rcases List.mem_append.mp he with heR | heN
    · obtain ⟨hek, hev⟩ := hRchecks.2 e heR
      refine ⟨hek, ?_⟩
      rw [show (bookkeepingUpdate { t with isAnimating := true }
          (computeChanges N t.blobsMap cur next)).blobs =
        ((computeChanges N t.blobsMap cur next).blobsToRemove.foldl removeBlob
          { t with isAnimating := true }).blobs ++
          (computeChanges N t.blobsMap cur next).newBlobs from hs1blobs]
      exact List.mem_append.mpr (Or.inl hev)
    · rcases List.mem_map.mp heN with ⟨b, hb, rfl⟩
      refine ⟨rfl, ?_⟩
      rw [show (bookkeepingUpdate { t with isAnimating := true }
          (computeChanges N t.blobsMap cur next)).blobs =
        ((computeChanges N t.blobsMap cur next).blobsToRemove.foldl removeBlob
          { t with isAnimating := true }).blobs ++
          (computeChanges N t.blobsMap cur next).newBlobs from hs1blobs]
      exact List.mem_append.mpr (Or.inr hb)

/-- C10.  At every quiescent point the two bookkeeping structures agree in
the claim's sense (`Agree`): after construction (`createBlobs`), after
`resetBlobs`, after the regroup step of a generation transition, and after
the transition completes.  The transition conjuncts assume a consistent
starting point: agreement, unique map keys, a map matching the live cells of
`currentGrid`, and a pending change set computed by `prepareNextGeneration`
from the two grids. -/
theorem bookkeeping_agreement (N : Nat) (g : Grid) (s t : VisState)
    (cur next : Grid)
    (h1 : Agree t)
    (hkeys : (t.blobsMap.map (fun e => e.1)).Nodup)
    (h2 : ∀ c ∈ cellPairs N,
      ((mapLookup t.blobsMap c).isSome = true ↔ cell? cur c.1 c.2 = some 1))
    (h3 : t.pendingChanges = some (computeChanges N t.blobsMap cur next))
    (h4 : t.isAnimating = false) :
    Agree (createBlobs N g s) ∧
    Agree (resetBlobs N g s) ∧
    Agree (regroup N (bookkeepingUpdate { t with isAnimating := true }
      (computeChanges N t.blobsMap cur next))) ∧
    Agree (animateNextGeneration N t).2.1 := by
  have hbk := agreeChecks_bookkeeping N t cur next ((agree_iff_checks t).mp h1) hkeys h2
  refine ⟨agree_createBlobs N g s, agree_createBlobs N g _,
    (agree_iff_checks _).mpr hbk, ?_⟩
  have hrun : animateNextGeneration N t =
      (true,
       finishTransition (growStart (regroup N (bookkeepingUpdate
         { t with isAnimating := true } (computeChanges N t.blobsMap cur next)))
         (computeChanges N t.blobsMap cur next)),
       [PhaseEvent.shrink (computeChanges N t.blobsMap cur next).blobsToRemove.length,
        PhaseEvent.regroup,
        PhaseEvent.grow (computeChanges N t.blobsMap cur next).newBlobs.length]) := by
    rw [animateNextGeneration, h3]
    rw [h4]
    rfl
  rw [hrun]
  apply (agree_iff_checks _).mpr
  show AgreeChecks (growStart (regroup N (bookkeepingUpdate
    { t with isAnimating := true } (computeChanges N t.blobsMap cur next)))
    (computeChanges N t.blobsMap cur next))
  rw [growStart_eq]
  exact agreeChecks_map_values (growFn (computeChanges N t.blobsMap cur next))
    (growFn_coords (computeChanges N t.blobsMap cur next)) _ hbk

/-- Witness for C10 at a concrete 2×2 transition. -/
theorem bookkeeping_agreement_witness :
    mapLookup (createBlobs 2 [[1, 0], [0, 0]]
      ⟨[], [], [], none, false⟩).blobsMap (0, 0) = some ⟨0, 0, true⟩ :=
  ((bookkeeping_agreement 2 [[1, 0], [0, 0]] ⟨[], [], [], none, false⟩
      { createBlobs 2 [[1, 0], [0, 0]] ⟨[], [], [], none, false⟩ with
          pendingChanges := some (computeChanges 2
            (createBlobs 2 [[1, 0], [0, 0]] ⟨[], [], [], none, false⟩).blobsMap
            [[1, 0], [0, 0]] [[0, 0], [0, 1]]) }
      [[1, 0], [0, 0]] [[0, 0], [0, 1]]
      ((agree_iff_checks _).mpr (by decide)) (by decide) (by decide) rfl rfl).1.1
    ⟨0, 0, true⟩).mp (by decide)
